import Mathlib

/-
  Verification of the SplitView manager
  (src/browser/base/content/browser-splitView.mjs).

  Shallow embedding: the manager's mutable state (group list, currentView,
  panel, preference flag, per-tab browser/container state) is a record, and
  each method of the `SplitView` class becomes a state-passing function.
  Methods that can throw in JavaScript (indexing `this._data` with an
  invalid `currentView` yields `undefined`, and `.tabs` on it throws)
  return `Option`, with `none` standing for the thrown exception.

  The DOM inline `style` attribute is modelled as a parsed property map
  (one `Option String` per CSS property the code touches): `removeAttribute
  ("style")` clears all properties, writing the empty string to a property
  removes it, and the string appended by `setTabsDocShellState` is modelled
  by the two declarations it parses to.
-/

namespace SplitView

/-- Tabs are external objects; we identify them by an id. -/
abbrev TabId := Nat

/-- The inline style declarations the code reads or writes on a
`.browserSidebarContainer` container or the tab browser panel. -/
structure CStyle where
  display : Option String := none
  flex : Option String := none
  order : Option String := none
  visibility : Option String := none
  mozSubtreeHiddenOnlyVisually : Option String := none
  deriving DecidableEq, Repr

/-- The style state after `removeAttribute("style")`. -/
def CStyle.empty : CStyle := {}

/-- CSSOM write `style.prop = v`: assigning the empty string removes the
declaration. -/
def cssVal (v : String) : Option String := if v = "" then none else some v

/-- The `.browserSidebarContainer` rendering container of one tab. -/
structure Container where
  attrSplit : Bool := false
  attrSplitActive : Bool := false
  attrSplitAnim : Bool := false
  deckSelected : Bool := false
  clickListener : Bool := false
  style : CStyle := {}
  deriving DecidableEq, Repr

/-- Per-tab state: the `splitView` flag on the tab, the `spliting` and
`docShellIsActive` flags on its linked browser, and its container. -/
structure TabState where
  splitView : Bool := false
  spliting : Bool := false
  docShellIsActive : Bool := false
  container : Container := {}
  deriving DecidableEq, Repr

/-- The `tabbrowser-tabpanels` panel element. -/
structure Panel where
  attrSplitView : Bool := false
  display : Option String := none
  flexDirection : Option String := none
  flexTemplateAreas : Option String := none
  deriving DecidableEq, Repr

/-- One entry of `this._data`: `{ tabs, flexType }`. -/
structure Group where
  tabs : List TabId
  flexType : String
  deriving DecidableEq, Repr

/-- The whole observable state of the manager and its collaborators:
`this._data`, `this.currentView`, the panel, the
`floorp.browser.splitView.working` preference, the per-tab state, and
`gBrowser.selectedTab` (`none` = undefined). -/
@[ext]
structure SVState where
  data : List Group
  currentView : Int
  panel : Panel
  prefWorking : Bool
  tabs : TabId → TabState
  selectedTab : Option TabId

/-- Update the state of a single tab. -/
def updTab (s : SVState) (t : TabId) (f : TabState → TabState) : SVState :=
  { s with tabs := fun x => if x = t then f (s.tabs x) else s.tabs x }

/-- Fold a per-tab update over a list (each JS `for`/`forEach` loop that
touches tab or container state becomes one of these). -/
def updTabsBy (s : SVState) (l : List α) (key : α → TabId)
    (f : α → TabState → TabState) : SVState :=
  l.foldl (fun acc x => updTab acc (key x) (f x)) s

/-- `this._data[this.currentView]`: `some` group when `currentView` is a
valid index, `none` (JS `undefined`) otherwise. -/
def dataAt (s : SVState) : Option Group :=
  if 0 ≤ s.currentView then s.data[s.currentView.toNat]? else none

/-- The per-tab effect of `resetTabState(tab, forUnsplit)`. -/
def resetUpd (forUnsplit : Bool) (ts : TabState) : TabState :=
  let c0 : Container := { ts.container with attrSplit := false, style := CStyle.empty }
  if !forUnsplit then
    { ts with
      splitView := false
      spliting := false
      docShellIsActive := false
      container := { c0 with style := { c0.style with display := cssVal "none" } } }
  else
    { ts with
      splitView := false
      spliting := false
      container := { c0 with style := { c0.style with flex := cssVal "", order := cssVal "" } } }

/-- `resetTabState(tab, forUnsplit)`. -/
def resetTabState (s : SVState) (t : TabId) (forUnsplit : Bool) : SVState :=
  updTab s t (resetUpd forUnsplit)

/-- `resetContainerStyle(container)`. -/
def resetContainerStyle (c : Container) : Container :=
  { c with
    attrSplitActive := false
    deckSelected := false
    style := { c.style with flex := cssVal "", order := cssVal "" } }

/-- The per-tab effect of one iteration of `setTabsDocShellState`. -/
def dssUpd (active : Bool) (ts : TabState) : TabState :=
  let ts1 : TabState := { ts with spliting := active, docShellIsActive := active }
  if active then
    { ts1 with container := { ts1.container with
        attrSplit := true
        style := { ts1.container.style with
          mozSubtreeHiddenOnlyVisually := some "0"
          visibility := some "visible !important" } } }
  else
    { ts1 with container := { ts1.container with attrSplit := false, style := CStyle.empty } }

/-- `setTabsDocShellState(tabs, active)`. -/
def setTabsDocShellState (s : SVState) (l : List TabId) (active : Bool) : SVState :=
  updTabsBy s l id (fun _ => dssUpd active)

/-- The per-tab effect of one iteration of the `deactivateSplitView` loop:
reset the container style and remove the click listener. -/
def deactUpd (ts : TabState) : TabState :=
  { ts with container := { resetContainerStyle ts.container with clickListener := false } }

/-- The body of `deactivateSplitView()`, given the active group that
`this._data[this.currentView]` resolved to. -/
def deactivateCore (s : SVState) (g : Group) : SVState :=
  let s1 := updTabsBy s g.tabs id (fun _ => deactUpd)
  let s2 := { s1 with
    panel := { s1.panel with attrSplitView := false, flexTemplateAreas := cssVal "" }
    prefWorking := false }
  let s3 := setTabsDocShellState s2 g.tabs false
  { s3 with currentView := -1 }

/-- `deactivateSplitView()`; throws when `currentView` is not a valid index. -/
def deactivateSplitView (s : SVState) : Option SVState :=
  (dataAt s).map (deactivateCore s)

/-- `styleContainer(container, isActive, index, flexType)`. -/
def styleContainer (c : Container) (isActive : Bool) (index : Nat) (flexType : String) :
    Container :=
  let c1 : Container := { c with
    attrSplitActive := isActive
    attrSplitAnim := true
    clickListener := true }
  if flexType = "flex" then
    { c1 with style := { c1.style with flex := cssVal "1", order := cssVal (toString index) } }
  else c1

/-- The per-tab effect of one iteration of the `applyFlexBoxLayout` loop. -/
def flexUpd (index : Nat) (isActive : Bool) (flexType : String) (ts : TabState) : TabState :=
  { ts with
    splitView := true
    container := styleContainer ts.container isActive index flexType }

/-- `applyFlexBoxLayout(tabs, flexType, activeTab)`. -/
def applyFlexBoxLayout (s : SVState) (l : List TabId) (flexType : String)
    (activeTab : TabId) : SVState :=
  let s1 := { s with panel := { s.panel with flexDirection := cssVal "column" } }
  updTabsBy s1 l.enum Prod.snd (fun p => flexUpd p.1 (p.2 == activeTab) flexType)

/-- `activateSplitView(splitData, activeTab)`. -/
def activateSplitView (s : SVState) (g : Group) (activeTab : TabId) : SVState :=
  let s1 := { s with
    panel := { s.panel with attrSplitView := true }
    prefWorking := true
    currentView := (s.data.indexOf g : Int) }
  let flexType := if g.flexType = "" then "flex" else g.flexType
  let s2 := applyFlexBoxLayout s1 g.tabs flexType activeTab
  setTabsDocShellState s2 g.tabs true

/-- `updateSplitView(tab)`.  The JS condition
`!splitData || (currentView >= 0 && !data[currentView].tabs.includes(tab))`
short-circuits, so `data[currentView]` is only dereferenced (and can only
throw) when a group for the tab was found and `currentView >= 0`, or inside
`deactivateSplitView`. -/
def updateSplitView (s : SVState) (t : TabId) : Option SVState :=
  match s.data.find? (fun g => g.tabs.contains t) with
  | none =>
      if 0 ≤ s.currentView then (dataAt s).map (deactivateCore s)
      else some s
  | some g =>
      if 0 ≤ s.currentView then
        match dataAt s with
        | none => none
        | some cg =>
            if cg.tabs.contains t then some (activateSplitView s g t)
            else some (activateSplitView (deactivateCore s cg) g t)
      else some (activateSplitView s g t)

/-- `resetSplitView()`; throws when `currentView` is not a valid index. -/
def resetSplitView (s : SVState) : Option SVState :=
  (dataAt s).map fun g =>
    let s1 := updTabsBy s g.tabs id (fun _ => resetUpd true)
    { s1 with
      currentView := -1
      panel := { s1.panel with
        attrSplitView := false
        display := cssVal ""
        flexDirection := cssVal "" }
      prefWorking := false }

/-- `removeGroup(groupIndex)`. -/
def removeGroup (s : SVState) (i : Nat) : Option SVState :=
  (if s.currentView = (i : Int) then resetSplitView s else some s).map
    fun s1 => { s1 with data := s1.data.eraseIdx i }

/-- `group.tabs.splice(group.tabs.indexOf(tab), 1)`: removes the first
occurrence of `tab`; when the tab is absent, `splice(-1, 1)` removes the
last element. -/
def spliceOut (l : List TabId) (t : TabId) : List TabId :=
  match l.findIdx? (fun x => x == t) with
  | some k => l.eraseIdx k
  | none => l.dropLast

/-- `removeTabFromGroup(tab, groupIndex, forUnsplit)`. -/
def removeTabFromGroup (s : SVState) (t : TabId) (gi : Nat) (forUnsplit : Bool) :
    Option SVState :=
  match s.data[gi]? with
  | none => none
  | some g =>
      let newTabs := spliceOut g.tabs t
      let s1 := { s with data := s.data.set gi { g with tabs := newTabs } }
      let s2 := resetTabState s1 t forUnsplit
      if newTabs.length < 2 then removeGroup s2 gi
      else
        match newTabs.getLast? with
        | some last => updateSplitView s2 last
        | none => none

/-- `handleTabClose(event)` with `event.target = t`,
`event.forUnsplit = forUnsplit`. -/
def handleTabClose (s : SVState) (t : TabId) (forUnsplit : Bool) : Option SVState :=
  match s.data.findIdx? (fun g => g.tabs.contains t) with
  | none => some s
  | some gi => removeTabFromGroup s t gi forUnsplit

/-- The group-creating tail of `splitTabs(tabs)`: push the new group, make
the first input tab the selected tab, and update.  `tabs[0]` of an empty
input is `undefined`; `updateSplitView(undefined)` finds no group (no group
contains `undefined`), so it reduces to the deactivation branch. -/
def splitTabsNew (s : SVState) (ts : List TabId) : Option SVState :=
  let s1 := { s with data := s.data ++ [Group.mk ts "flex"] }
  let s2 := { s1 with selectedTab := ts.head? }
  match ts.head? with
  | some t0 => updateSplitView s2 t0
  | none =>
      if 0 ≤ s2.currentView then (dataAt s2).map (deactivateCore s2)
      else some s2

/-- `splitTabs(tabs)`.  Note the re-activation guard looks for the first
input tab whose `splitView` flag is set, then checks that tab's group
membership. -/
def splitTabs (s : SVState) (ts : List TabId) : Option SVState :=
  match ts.find? (fun t => (s.tabs t).splitView) with
  | some et =>
      if (s.data.findIdx? (fun g => g.tabs.contains et)).isSome then updateSplitView s et
      else splitTabsNew s ts
  | none => splitTabsNew s ts

/-- The `for (const tab of tabs)` loop of `unsplitCurrentView`, iterating
over the *live* member array of the active group while `handleTabClose`
splices that same array.  `live` mirrors the contents of the iterated
array, `i` the iterator position, `gi` the index of the group whose `tabs`
array is being iterated, and `alive` whether that group is still present in
`this._data` (once the group is removed the array is orphaned and frozen).
The second component of the result records, in order, the tabs for which
`handleTabClose` was invoked.  `fuel` only bounds the recursion; the array
never grows, so `live.length + 1` steps always suffice. -/
def unsplitLoop (fuel : Nat) (s : SVState) (live : List TabId) (gi : Nat)
    (alive : Bool) (i : Nat) : Option (SVState × List TabId) :=
  match fuel with
  | 0 => none
  | fuel + 1 =>
      if h : i < live.length then
        let t := live[i]
        match s.data.findIdx? (fun g => g.tabs.contains t) with
        | none =>
            (unsplitLoop fuel s live gi alive (i + 1)).map (fun r => (r.1, t :: r.2))
        | some j =>
            match s.data[j]? with
            | none => none
            | some g =>
                let newTabs := spliceOut g.tabs t
                match removeTabFromGroup s t j true with
                | none => none
                | some s1 =>
                    if alive = true ∧ j = gi then
                      (unsplitLoop fuel s1 newTabs gi (decide (2 ≤ newTabs.length))
                        (i + 1)).map (fun r => (r.1, t :: r.2))
                    else
                      let gi1 := if newTabs.length < 2 ∧ j < gi then gi - 1 else gi
                      (unsplitLoop fuel s1 live gi1 alive (i + 1)).map
                        (fun r => (r.1, t :: r.2))
      else some (s, [])

/-- `unsplitCurrentView()`: remember the selected tab, run the close loop
over the active group's live member array, restore the selected tab.
Throws (`none`) when `currentView` is not a valid index.  Also returns the
ordered list of tabs for which `handleTabClose` was invoked. -/
def unsplitCurrentView (s : SVState) : Option (SVState × List TabId) :=
  match dataAt s with
  | none => none
  | some g =>
      (unsplitLoop (g.tabs.length + 1) s g.tabs s.currentView.toNat true 0).map
        (fun r => ({ r.1 with selectedTab := s.selectedTab }, r.2))

/-- The state set up by the constructor (empty group list, no active view,
preference cleared). -/
def initState : SVState :=
  { data := []
    currentView := -1
    panel := {}
    prefWorking := false
    tabs := fun _ => {}
    selectedTab := none }

/-- The operations named by the invariant claim. -/
inductive Op where
  | splitTabs (ts : List TabId)
  | handleTabClose (t : TabId) (forUnsplit : Bool)
  | removeGroup (i : Nat)
  | updateSplitView (t : TabId)
  | deactivateSplitView
  | resetSplitView
  | unsplitCurrentView

/-- Run one operation. -/
def applyOp : Op → SVState → Option SVState
  | .splitTabs ts, s => splitTabs s ts
  | .handleTabClose t b, s => handleTabClose s t b
  | .removeGroup i, s => removeGroup s i
  | .updateSplitView t, s => updateSplitView s t
  | .deactivateSplitView, s => deactivateSplitView s
  | .resetSplitView, s => resetSplitView s
  | .unsplitCurrentView, s => (unsplitCurrentView s).map Prod.fst

/-- The active group (when `currentView` is a valid index) is the one
currently receiving docshell-active state: every member's browser is
docshell-active. -/
def activeReceiving (s : SVState) : Prop :=
  match dataAt s with
  | none => False
  | some g => ∀ t ∈ g.tabs, (s.tabs t).docShellIsActive = true

instance (s : SVState) : Decidable (activeReceiving s) :=
  match h : dataAt s with
  | none => .isFalse (by simp [activeReceiving, h])
  | some g =>
      decidable_of_iff (∀ t ∈ g.tabs, (s.tabs t).docShellIsActive = true)
        (by simp [activeReceiving, h])

/-- The claimed invariant: `currentView` is either "none" (-1) or a valid
index into the groups list whose group is receiving active state. -/
def ViewInv (s : SVState) : Prop :=
  s.currentView = -1 ∨
    ((0 ≤ s.currentView ∧ s.currentView.toNat < s.data.length) ∧ activeReceiving s)

instance (s : SVState) : Decidable (ViewInv s) := by
  unfold ViewInv; infer_instance

/-- Members of `g` never occur in `h`. -/
def DisjG (g h : Group) : Prop := ∀ t ∈ g.tabs, t ∉ h.tabs

instance (g h : Group) : Decidable (DisjG g h) := by
  unfold DisjG; infer_instance

/-- Structural well-formedness of the group list: every group has at least
two members, member lists have no duplicates, and no tab belongs to two
groups. -/
structure WF (s : SVState) : Prop where
  sizes : ∀ g ∈ s.data, 2 ≤ g.tabs.length
  nodups : ∀ g ∈ s.data, g.tabs.Nodup
  disj : s.data.Pairwise DisjG


/-! ### Generic lemmas about the per-tab update folds -/

theorem updTabsBy_nil (s : SVState) (key : α → TabId) (f : α → TabState → TabState) :
    updTabsBy s [] key f = s := rfl

theorem updTabsBy_cons (s : SVState) (a : α) (l : List α) (key : α → TabId)
    (f : α → TabState → TabState) :
    updTabsBy s (a :: l) key f = updTabsBy (updTab s (key a) (f a)) l key f := rfl

theorem updTab_data (s : SVState) (t : TabId) (f : TabState → TabState) :
    (updTab s t f).data = s.data := rfl

theorem updTabsBy_data (s : SVState) (l : List α) (key : α → TabId)
    (f : α → TabState → TabState) : (updTabsBy s l key f).data = s.data := by
  induction l generalizing s with
  | nil => rfl
  | cons a l ih => rw [updTabsBy_cons, ih, updTab_data]

theorem updTabsBy_currentView (s : SVState) (l : List α) (key : α → TabId)
    (f : α → TabState → TabState) : (updTabsBy s l key f).currentView = s.currentView := by
  induction l generalizing s with
  | nil => rfl
  | cons a l ih => rw [updTabsBy_cons, ih]; rfl

theorem updTabsBy_panel (s : SVState) (l : List α) (key : α → TabId)
    (f : α → TabState → TabState) : (updTabsBy s l key f).panel = s.panel := by
  induction l generalizing s with
  | nil => rfl
  | cons a l ih => rw [updTabsBy_cons, ih]; rfl

theorem updTabsBy_prefWorking (s : SVState) (l : List α) (key : α → TabId)
    (f : α → TabState → TabState) : (updTabsBy s l key f).prefWorking = s.prefWorking := by
  induction l generalizing s with
  | nil => rfl
  | cons a l ih => rw [updTabsBy_cons, ih]; rfl

theorem updTabsBy_selectedTab (s : SVState) (l : List α) (key : α → TabId)
    (f : α → TabState → TabState) : (updTabsBy s l key f).selectedTab = s.selectedTab := by
  induction l generalizing s with
  | nil => rfl
  | cons a l ih => rw [updTabsBy_cons, ih]; rfl

theorem updTab_tabs_self (s : SVState) (t : TabId) (f : TabState → TabState) :
    (updTab s t f).tabs t = f (s.tabs t) := by
  simp [updTab]

theorem updTab_tabs_other (s : SVState) (t x : TabId) (f : TabState → TabState)
    (h : x ≠ t) : (updTab s t f).tabs x = s.tabs x := by
  simp [updTab, h]

/-- Tabs whose id is not a key of the fold are untouched. -/
theorem updTabsBy_tabs_of_notMem (s : SVState) (l : List α) (key : α → TabId)
    (f : α → TabState → TabState) (x : TabId) (h : ∀ a ∈ l, key a ≠ x) :
    (updTabsBy s l key f).tabs x = s.tabs x := by
  induction l generalizing s with
  | nil => rfl
  | cons a l ih =>
      rw [updTabsBy_cons, ih _ (fun b hb => h b (List.mem_cons_of_mem _ hb))]
      exact updTab_tabs_other _ _ _ _ (fun hx => h a (List.mem_cons_self _ _) hx.symm)

/-- A property of a tab's state that every step of the fold preserves at its
own key is preserved by the whole fold. -/
theorem updTabsBy_tabs_pres (s : SVState) (l : List α) (key : α → TabId)
    (f : α → TabState → TabState) (P : TabId → TabState → Prop)
    (hpres : ∀ a ∈ l, ∀ v, P (key a) v → P (key a) (f a v))
    (x : TabId) (h : P x (s.tabs x)) : P x ((updTabsBy s l key f).tabs x) := by
  induction l generalizing s with
  | nil => exact h
  | cons a l ih =>
      rw [updTabsBy_cons]
      refine ih _ (fun b hb => hpres b (List.mem_cons_of_mem _ hb)) ?_
      by_cases hx : x = key a
      · subst hx
        rw [updTab_tabs_self]
        exact hpres a (List.mem_cons_self _ _) _ h
      · rw [updTab_tabs_other _ _ _ _ hx]; exact h

/-- A property that every step of the fold establishes (and preserves) at
its own key holds for every key of the fold afterwards. -/
theorem updTabsBy_tabs_estab (s : SVState) (l : List α) (key : α → TabId)
    (f : α → TabState → TabState) (P : TabId → TabState → Prop)
    (hset : ∀ a ∈ l, ∀ v, P (key a) (f a v))
    (a : α) (ha : a ∈ l) : P (key a) ((updTabsBy s l key f).tabs (key a)) := by
  induction l generalizing s with
  | nil => cases ha
  | cons b l ih =>
      rw [updTabsBy_cons]
      rcases List.mem_cons.mp ha with h | h
      · subst h
        refine updTabsBy_tabs_pres _ _ _ _ P ?_ _ ?_
        · intro c hc v _
          exact hset c (List.mem_cons_of_mem _ hc) v
        · rw [updTab_tabs_self]
          exact hset a (List.mem_cons_self _ _) _
      · exact ih _ (fun c hc v => hset c (List.mem_cons_of_mem _ hc) v) h

/-- With distinct keys, the fold rewrites each key's tab state exactly once. -/
theorem updTabsBy_tabs_of_nodup (s : SVState) (l : List α) (key : α → TabId)
    (f : α → TabState → TabState) (hnd : (l.map key).Nodup)
    (a : α) (ha : a ∈ l) :
    (updTabsBy s l key f).tabs (key a) = f a (s.tabs (key a)) := by
  induction l generalizing s with
  | nil => cases ha
  | cons b l ih =>
      rw [List.map_cons, List.nodup_cons] at hnd
      rw [updTabsBy_cons]
      rcases List.mem_cons.mp ha with h | h
      · subst h
        rw [updTabsBy_tabs_of_notMem _ _ _ _ _
              (fun c hc hx => hnd.1 (by rw [← hx]; exact List.mem_map_of_mem key hc)),
            updTab_tabs_self]
      · rw [ih _ hnd.2 h, updTab_tabs_other]
        intro hx
        exact hnd.1 (hx ▸ List.mem_map_of_mem key h)


/-! ### List-level helpers about the group list -/

theorem contains_true_iff (l : List TabId) (t : TabId) : l.contains t = true ↔ t ∈ l := by
  simp

/-- In a pairwise-disjoint group list, a member of the group at index `gi`
occurs in no group at another index. -/
theorem disj_not_mem_other {d : List Group} (hd : d.Pairwise DisjG) {gi : Nat} {g : Group}
    (hg : d[gi]? = some g) {t : TabId} (ht : t ∈ g.tabs) {j : Nat} {h : Group}
    (hj : d[j]? = some h) (hne : j ≠ gi) : t ∉ h.tabs := by
  rw [List.getElem?_eq_some_iff] at hg hj
  obtain ⟨hgi, hgv⟩ := hg
  obtain ⟨hjl, hjv⟩ := hj
  rcases Nat.lt_or_ge j gi with hlt | hge
  · intro hth
    exact (List.pairwise_iff_getElem.mp hd j gi hjl hgi hlt) t (hjv ▸ hth) (hgv ▸ ht)
  · have hlt : gi < j := lt_of_le_of_ne hge (Ne.symm hne)
    exact fun hth => (List.pairwise_iff_getElem.mp hd gi j hgi hjl hlt) t (hgv ▸ ht) (hjv ▸ hth)

/-- `_data.find(group => group.tabs.includes(tab))` resolves to the unique
group containing the tab. -/
theorem find_contains_eq {d : List Group} (hd : d.Pairwise DisjG) {gi : Nat} {g : Group}
    (hg : d[gi]? = some g) {t : TabId} (ht : t ∈ g.tabs) :
    d.find? (fun h => h.tabs.contains t) = some g := by
  induction d generalizing gi with
  | nil => simp at hg
  | cons c rest ih =>
      rw [List.pairwise_cons] at hd
      cases gi with
      | zero =>
          rw [List.getElem?_cons_zero, Option.some_inj] at hg
          subst hg
          simp [List.find?_cons, ht]
      | succ n =>
          rw [List.getElem?_cons_succ] at hg
          have hgm : g ∈ rest := List.getElem?_mem hg
          have htc : t ∉ c.tabs := fun hc => hd.1 g hgm t hc ht
          rw [List.find?_cons]
          have : c.tabs.contains t = false := by
            rw [← Bool.not_eq_true, contains_true_iff]; exact htc
          simp only [this]
          exact ih hd.2 hg

theorem findIdx_contains_aux {d : List Group} (hd : d.Pairwise DisjG) {gi : Nat} {g : Group}
    (hg : d[gi]? = some g) {t : TabId} (ht : t ∈ g.tabs) (k : Nat) :
    List.findIdx? (fun h => h.tabs.contains t) d k = some (k + gi) := by
  induction d generalizing gi k with
  | nil => simp at hg
  | cons c rest ih =>
      rw [List.pairwise_cons] at hd
      cases gi with
      | zero =>
          rw [List.getElem?_cons_zero, Option.some_inj] at hg
          subst hg
          simp [List.findIdx?_cons, ht]
      | succ n =>
          rw [List.getElem?_cons_succ] at hg
          have hgm : g ∈ rest := List.getElem?_mem hg
          have htc : t ∉ c.tabs := fun hc => hd.1 g hgm t hc ht
          have hfc : c.tabs.contains t = false := by
            rw [← Bool.not_eq_true, contains_true_iff]; exact htc
          rw [List.findIdx?_cons]
          simp only [hfc, if_false, Bool.false_eq_true]
          rw [ih hd.2 hg (k + 1)]
          congr 1
          omega

/-- `_data.findIndex(group => group.tabs.includes(tab))` resolves to the
index of the unique group containing the tab. -/
theorem findIdx_contains_eq {d : List Group} (hd : d.Pairwise DisjG) {gi : Nat} {g : Group}
    (hg : d[gi]? = some g) {t : TabId} (ht : t ∈ g.tabs) :
    d.findIdx? (fun h => h.tabs.contains t) = some gi := by
  have := findIdx_contains_aux hd hg ht 0
  simpa using this

/-- `_data.indexOf(splitData)` (identity in JS, structural equality here)
recovers the index of a nonempty group in a pairwise-disjoint list. -/
theorem indexOf_eq_of_disj {d : List Group} (hd : d.Pairwise DisjG) {gi : Nat} {g : Group}
    (hg : d[gi]? = some g) (hne : g.tabs ≠ []) : d.indexOf g = gi := by
  induction d generalizing gi with
  | nil => simp at hg
  | cons c rest ih =>
      rw [List.pairwise_cons] at hd
      cases gi with
      | zero =>
          rw [List.getElem?_cons_zero, Option.some_inj] at hg
          subst hg
          simp [List.indexOf_cons]
      | succ n =>
          rw [List.getElem?_cons_succ] at hg
          have hgm : g ∈ rest := List.getElem?_mem hg
          have hcg : c ≠ g := by
            intro hcg
            obtain ⟨t, htm⟩ := List.exists_mem_of_length_pos (List.length_pos.mpr hne)
            exact hd.1 g hgm t (hcg ▸ htm) htm
          have hbeq : (c == g) = false := by
            simp [hcg]
          rw [List.indexOf_cons, hbeq]
          simp only [cond_false]
          rw [ih hd.2 hg]

/-- `findIdx?` on a duplicate-free list locates the element at `i` at
exactly `i`. -/
theorem findIdx_beq_nodup {l : List TabId} (hnd : l.Nodup) {i : Nat} (h : i < l.length)
    (k : Nat) : List.findIdx? (fun x => x == l[i]) l k = some (k + i) := by
  induction l generalizing i k with
  | nil => simp at h
  | cons c rest ih =>
      rw [List.nodup_cons] at hnd
      cases i with
      | zero =>
          rw [List.findIdx?_cons]
          simp
      | succ n =>
          have hn : n < rest.length := by simpa using h
          have hval : (c :: rest)[n + 1] = rest[n] := by simp
          have hne : c ≠ rest[n] := fun hc => hnd.1 (hc ▸ List.getElem_mem hn)
          rw [List.findIdx?_cons]
          simp only [hval]
          have hbeq : (c == rest[n]) = false := by simp [hne]
          simp only [hbeq, if_false, Bool.false_eq_true]
          rw [ih hnd.2 hn (k + 1)]
          congr 1
          omega

/-- Splicing out the element at position `i` of a duplicate-free list is
`eraseIdx i`. -/
theorem spliceOut_at {l : List TabId} (hnd : l.Nodup) {i : Nat} (h : i < l.length) :
    spliceOut l l[i] = l.eraseIdx i := by
  unfold spliceOut
  rw [show l.findIdx? (fun x => x == l[i]) = some (0 + i) from findIdx_beq_nodup hnd h 0]
  simp

/-- Splicing out a present element is `List.erase` (first occurrence,
relative order preserved). -/
theorem spliceOut_eq_erase {l : List TabId} {t : TabId} (ht : t ∈ l) :
    spliceOut l t = l.erase t := by
  induction l with
  | nil => cases ht
  | cons c rest ih =>
      by_cases hc : c = t
      · subst hc
        unfold spliceOut
        rw [List.findIdx?_cons]
        simp [List.erase_cons]
      · have htr : t ∈ rest := by
          rcases List.mem_cons.mp ht with h | h
          · exact absurd h.symm hc
          · exact h
        have hbeq : (c == t) = false := by simp [hc]
        have hfr : ∃ k, List.findIdx? (fun x => x == t) rest 0 = some k := by
          rcases hk : List.findIdx? (fun x => x == t) rest 0 with _ | k
          · rw [List.findIdx?_eq_none_iff] at hk
            have := hk t htr
            simp at this
          · exact ⟨k, rfl⟩
        obtain ⟨k, hk⟩ := hfr
        have hrec : spliceOut rest t = rest.eraseIdx k := by
          unfold spliceOut
          rw [hk]
        unfold spliceOut
        rw [List.findIdx?_cons, hbeq]
        simp only [if_false, Bool.false_eq_true]
        rw [List.findIdx?_succ, hk]
        simp only [Option.map_some']
        rw [List.eraseIdx_cons_succ, List.erase_cons, hbeq]
        simp only [Bool.false_eq_true, if_false]
        rw [← ih htr, hrec]

/-- Replacing the group at `gi` by one with a subset of its members keeps
the group list pairwise disjoint. -/
theorem pairwise_disj_set {d : List Group} (hd : d.Pairwise DisjG) {gi : Nat} {g : Group}
    (hg : d[gi]? = some g) {g2 : Group} (hsub : g2.tabs ⊆ g.tabs) :
    (d.set gi g2).Pairwise DisjG := by
  induction d generalizing gi with
  | nil => simp at hg
  | cons c rest ih =>
      rw [List.pairwise_cons] at hd
      cases gi with
      | zero =>
          rw [List.getElem?_cons_zero, Option.some_inj] at hg
          subst hg
          rw [List.set_cons_zero, List.pairwise_cons]
          exact ⟨fun b hb t ht2 => hd.1 b hb t (hsub ht2), hd.2⟩
      | succ n =>
          rw [List.getElem?_cons_succ] at hg
          rw [List.set_cons_succ, List.pairwise_cons]
          constructor
          · intro b hb
            rcases List.mem_or_eq_of_mem_set hb with h | h
            · exact hd.1 b h
            · subst h
              have hgm : g ∈ rest := List.getElem?_mem hg
              exact fun t htc ht2 => hd.1 g hgm t htc (hsub ht2)
          · exact ih hd.2 hg

/-- A state with the same group list as a well-formed state is well-formed. -/
theorem WF.of_data_eq {s s2 : SVState} (h : WF s) (he : s2.data = s.data) : WF s2 :=
  ⟨fun g hg => h.sizes g (he ▸ hg), fun g hg => h.nodups g (he ▸ hg), he ▸ h.disj⟩


/-! ### Facts about setTabsDocShellState -/

theorem dss_data (s : SVState) (l : List TabId) (b : Bool) :
    (setTabsDocShellState s l b).data = s.data := updTabsBy_data _ _ _ _

theorem dss_currentView (s : SVState) (l : List TabId) (b : Bool) :
    (setTabsDocShellState s l b).currentView = s.currentView := updTabsBy_currentView _ _ _ _

theorem dss_panel (s : SVState) (l : List TabId) (b : Bool) :
    (setTabsDocShellState s l b).panel = s.panel := updTabsBy_panel _ _ _ _

theorem dss_prefWorking (s : SVState) (l : List TabId) (b : Bool) :
    (setTabsDocShellState s l b).prefWorking = s.prefWorking := updTabsBy_prefWorking _ _ _ _

theorem dss_selectedTab (s : SVState) (l : List TabId) (b : Bool) :
    (setTabsDocShellState s l b).selectedTab = s.selectedTab := updTabsBy_selectedTab _ _ _ _

theorem dssUpd_docShell (b : Bool) (v : TabState) : (dssUpd b v).docShellIsActive = b := by
  cases b <;> rfl

theorem dssUpd_splitView (b : Bool) (v : TabState) : (dssUpd b v).splitView = v.splitView := by
  cases b <;> rfl

theorem dssUpd_attrSplitActive (b : Bool) (v : TabState) :
    (dssUpd b v).container.attrSplitActive = v.container.attrSplitActive := by
  cases b <;> rfl

theorem dss_tabs_of_notMem (s : SVState) (l : List TabId) (b : Bool) (x : TabId)
    (hx : x ∉ l) : (setTabsDocShellState s l b).tabs x = s.tabs x :=
  updTabsBy_tabs_of_notMem _ _ _ _ _ (fun _ ha hax => hx (hax ▸ ha))

theorem dss_docShell_mem (s : SVState) (l : List TabId) (b : Bool) (x : TabId)
    (hx : x ∈ l) : ((setTabsDocShellState s l b).tabs x).docShellIsActive = b := by
  have := updTabsBy_tabs_estab s l id (fun _ => dssUpd b)
    (fun _ v => v.docShellIsActive = b) (fun _ _ v => dssUpd_docShell b v) x hx
  exact this

theorem dss_splitView (s : SVState) (l : List TabId) (b : Bool) (x : TabId) :
    ((setTabsDocShellState s l b).tabs x).splitView = (s.tabs x).splitView := by
  have := updTabsBy_tabs_pres s l id (fun _ => dssUpd b)
    (fun _ v => v.splitView = (s.tabs x).splitView)
    (fun a _ v hv => by
      show (dssUpd b v).splitView = (s.tabs x).splitView
      rw [dssUpd_splitView]; exact hv) x rfl
  exact this

theorem dss_attrSplitActive (s : SVState) (l : List TabId) (b : Bool) (x : TabId) :
    ((setTabsDocShellState s l b).tabs x).container.attrSplitActive =
      (s.tabs x).container.attrSplitActive := by
  have := updTabsBy_tabs_pres s l id (fun _ => dssUpd b)
    (fun _ v => v.container.attrSplitActive = (s.tabs x).container.attrSplitActive)
    (fun a _ v hv => by
      show (dssUpd b v).container.attrSplitActive = (s.tabs x).container.attrSplitActive
      rw [dssUpd_attrSplitActive]; exact hv) x rfl
  exact this

/-! ### Facts about applyFlexBoxLayout -/

theorem mem_enum_snd {l : List TabId} {p : Nat × TabId} (h : p ∈ l.enum) : p.2 ∈ l := by
  have he := List.enum_map_snd l
  rw [← he]
  exact List.mem_map_of_mem Prod.snd h

theorem afb_data (s : SVState) (l : List TabId) (ft : String) (t : TabId) :
    (applyFlexBoxLayout s l ft t).data = s.data := updTabsBy_data _ _ _ _

theorem afb_currentView (s : SVState) (l : List TabId) (ft : String) (t : TabId) :
    (applyFlexBoxLayout s l ft t).currentView = s.currentView := updTabsBy_currentView _ _ _ _

theorem afb_prefWorking (s : SVState) (l : List TabId) (ft : String) (t : TabId) :
    (applyFlexBoxLayout s l ft t).prefWorking = s.prefWorking := updTabsBy_prefWorking _ _ _ _

theorem afb_selectedTab (s : SVState) (l : List TabId) (ft : String) (t : TabId) :
    (applyFlexBoxLayout s l ft t).selectedTab = s.selectedTab := updTabsBy_selectedTab _ _ _ _

theorem afb_panel (s : SVState) (l : List TabId) (ft : String) (t : TabId) :
    (applyFlexBoxLayout s l ft t).panel =
      { s.panel with flexDirection := some "column" } := by
  unfold applyFlexBoxLayout
  rw [updTabsBy_panel]
  simp [cssVal]

theorem styleContainer_attrSplitActive (c : Container) (b : Bool) (i : Nat) (ft : String) :
    (styleContainer c b i ft).attrSplitActive = b := by
  unfold styleContainer
  split <;> rfl

theorem afb_tabs_of_notMem (s : SVState) (l : List TabId) (ft : String) (t : TabId)
    (x : TabId) (hx : x ∉ l) : (applyFlexBoxLayout s l ft t).tabs x = s.tabs x := by
  unfold applyFlexBoxLayout
  exact updTabsBy_tabs_of_notMem _ _ _ _ _ (fun p hp hpx => hx (hpx ▸ mem_enum_snd hp))

theorem afb_splitView_mem (s : SVState) (l : List TabId) (ft : String) (t : TabId)
    (x : TabId) (hx : x ∈ l) : ((applyFlexBoxLayout s l ft t).tabs x).splitView = true := by
  obtain ⟨i, hi, hix⟩ := List.mem_iff_getElem.mp hx
  have hpe : ((i, x) : Nat × TabId) ∈ l.enum := by
    rw [List.mem_enum_iff_getElem?]
    exact hix ▸ List.getElem?_eq_getElem hi
  unfold applyFlexBoxLayout
  exact updTabsBy_tabs_estab _ l.enum Prod.snd
    (fun p => flexUpd p.1 (p.2 == t) ft)
    (fun _ v => v.splitView = true)
    (fun p _ v => rfl) (i, x) hpe

theorem afb_attrSplitActive_mem (s : SVState) (l : List TabId) (ft : String) (t : TabId)
    (x : TabId) (hx : x ∈ l) :
    ((applyFlexBoxLayout s l ft t).tabs x).container.attrSplitActive = (x == t) := by
  obtain ⟨i, hi, hix⟩ := List.mem_iff_getElem.mp hx
  have hpe : ((i, x) : Nat × TabId) ∈ l.enum := by
    rw [List.mem_enum_iff_getElem?]
    exact hix ▸ List.getElem?_eq_getElem hi
  unfold applyFlexBoxLayout
  exact updTabsBy_tabs_estab _ l.enum Prod.snd
    (fun p => flexUpd p.1 (p.2 == t) ft)
    (fun k v => v.container.attrSplitActive = (k == t))
    (fun p _ v => styleContainer_attrSplitActive _ _ _ _) (i, x) hpe

/-- With duplicate-free members, the layout fold rewrites each member's tab
state exactly once, with an index depending only on the list and the
member. -/
theorem afb_tabs_of_nodup (l : List TabId) (ft : String) (t : TabId)
    (x : TabId) (hnd : l.Nodup) (hx : x ∈ l) :
    ∃ i, ∀ s : SVState,
      (applyFlexBoxLayout s l ft t).tabs x = flexUpd i (x == t) ft (s.tabs x) := by
  obtain ⟨i, hi, hix⟩ := List.mem_iff_getElem.mp hx
  refine ⟨i, fun s => ?_⟩
  have hpe : ((i, x) : Nat × TabId) ∈ l.enum := by
    rw [List.mem_enum_iff_getElem?]
    exact hix ▸ List.getElem?_eq_getElem hi
  have hkeys : (l.enum.map Prod.snd).Nodup := by
    rw [List.enum_map_snd]; exact hnd
  unfold applyFlexBoxLayout
  exact updTabsBy_tabs_of_nodup _ l.enum Prod.snd _ hkeys (i, x) hpe

/-! ### Facts about deactivateCore -/

theorem deact_data (s : SVState) (g : Group) : (deactivateCore s g).data = s.data := by
  unfold deactivateCore
  rw [dss_data, updTabsBy_data]

theorem deact_currentView (s : SVState) (g : Group) :
    (deactivateCore s g).currentView = -1 := rfl

theorem deact_selectedTab (s : SVState) (g : Group) :
    (deactivateCore s g).selectedTab = s.selectedTab := by
  unfold deactivateCore
  rw [dss_selectedTab, updTabsBy_selectedTab]

theorem deact_prefWorking (s : SVState) (g : Group) :
    (deactivateCore s g).prefWorking = false := by
  unfold deactivateCore
  rw [dss_prefWorking]

theorem deact_panel (s : SVState) (g : Group) :
    (deactivateCore s g).panel =
      { s.panel with attrSplitView := false, flexTemplateAreas := none } := by
  unfold deactivateCore
  rw [dss_panel, updTabsBy_panel]
  rfl

theorem deact_tabs_of_notMem (s : SVState) (g : Group) (x : TabId) (hx : x ∉ g.tabs) :
    (deactivateCore s g).tabs x = s.tabs x := by
  unfold deactivateCore
  rw [dss_tabs_of_notMem _ _ _ _ hx]
  exact updTabsBy_tabs_of_notMem _ _ _ _ _ (fun a ha hax => hx (hax ▸ ha))

theorem deact_docShell_mem (s : SVState) (g : Group) (x : TabId) (hx : x ∈ g.tabs) :
    ((deactivateCore s g).tabs x).docShellIsActive = false := by
  unfold deactivateCore
  exact dss_docShell_mem _ _ _ _ hx

/-! ### Facts about activateSplitView -/

theorem act_data (s : SVState) (g : Group) (t : TabId) :
    (activateSplitView s g t).data = s.data := by
  unfold activateSplitView
  rw [dss_data, afb_data]

theorem act_currentView (s : SVState) (g : Group) (t : TabId) :
    (activateSplitView s g t).currentView = (s.data.indexOf g : Int) := by
  unfold activateSplitView
  rw [dss_currentView, afb_currentView]

theorem act_selectedTab (s : SVState) (g : Group) (t : TabId) :
    (activateSplitView s g t).selectedTab = s.selectedTab := by
  unfold activateSplitView
  rw [dss_selectedTab, afb_selectedTab]

theorem act_prefWorking (s : SVState) (g : Group) (t : TabId) :
    (activateSplitView s g t).prefWorking = true := by
  unfold activateSplitView
  rw [dss_prefWorking, afb_prefWorking]

theorem act_panel (s : SVState) (g : Group) (t : TabId) :
    (activateSplitView s g t).panel =
      { s.panel with attrSplitView := true, flexDirection := some "column" } := by
  unfold activateSplitView
  rw [dss_panel, afb_panel]

theorem act_tabs_of_notMem (s : SVState) (g : Group) (t : TabId) (x : TabId)
    (hx : x ∉ g.tabs) : (activateSplitView s g t).tabs x = s.tabs x := by
  unfold activateSplitView
  rw [dss_tabs_of_notMem _ _ _ _ hx, afb_tabs_of_notMem _ _ _ _ _ hx]

theorem act_docShell_mem (s : SVState) (g : Group) (t : TabId) (x : TabId)
    (hx : x ∈ g.tabs) : ((activateSplitView s g t).tabs x).docShellIsActive = true := by
  unfold activateSplitView
  exact dss_docShell_mem _ _ _ _ hx

theorem act_splitView_mem (s : SVState) (g : Group) (t : TabId) (x : TabId)
    (hx : x ∈ g.tabs) : ((activateSplitView s g t).tabs x).splitView = true := by
  unfold activateSplitView
  rw [dss_splitView]
  exact afb_splitView_mem _ _ _ _ _ hx

theorem act_attrSplitActive_mem (s : SVState) (g : Group) (t : TabId) (x : TabId)
    (hx : x ∈ g.tabs) :
    ((activateSplitView s g t).tabs x).container.attrSplitActive = (x == t) := by
  unfold activateSplitView
  rw [dss_attrSplitActive]
  exact afb_attrSplitActive_mem _ _ _ _ _ hx


/-! ### Facts about updateSplitView -/

theorem find_contains_none {s : SVState} {t : TabId} (hn : ∀ g ∈ s.data, t ∉ g.tabs) :
    s.data.find? (fun g => g.tabs.contains t) = none := by
  rw [List.find?_eq_none]
  intro g hg
  rw [contains_true_iff]
  exact hn g hg

/-- `updateSplitView` for a tab in no group, with no active view: no-op. -/
theorem updateSplitView_noGroup_inactive {s : SVState} {t : TabId}
    (hn : ∀ g ∈ s.data, t ∉ g.tabs) (hcv : ¬ 0 ≤ s.currentView) :
    updateSplitView s t = some s := by
  unfold updateSplitView
  rw [find_contains_none hn]
  simp [hcv]

/-- `updateSplitView` for a tab in no group, with an active view: the
active view is deactivated first, then the call stops. -/
theorem updateSplitView_noGroup_active {s : SVState} {t : TabId} {cg : Group}
    (hn : ∀ g ∈ s.data, t ∉ g.tabs) (hcg : dataAt s = some cg) :
    updateSplitView s t = some (deactivateCore s cg) := by
  have hcv : 0 ≤ s.currentView := by
    by_contra hlt
    simp [dataAt, hlt] at hcg
  unfold updateSplitView
  rw [find_contains_none hn]
  simp [hcv, hcg]

/-- `updateSplitView` for a tab of the unique group at index `gi`: the call
succeeds and re-activates that group with the tab as the active member. -/
theorem updateSplitView_found_core {s : SVState} {gi : Nat} {g : Group} {t : TabId}
    (hfind : s.data.find? (fun h => h.tabs.contains t) = some g)
    (hidx : s.data.indexOf g = gi)
    (hcv : s.currentView = -1 ∨ (0 ≤ s.currentView ∧ s.currentView.toNat < s.data.length)) :
    ∃ s2, updateSplitView s t = some s2 ∧
      s2.data = s.data ∧ s2.selectedTab = s.selectedTab ∧
      s2.currentView = (gi : Int) ∧ s2.prefWorking = true ∧
      (∀ m ∈ g.tabs, (s2.tabs m).docShellIsActive = true ∧
        (s2.tabs m).container.attrSplitActive = (m == t)) ∧
      (∀ x, x ∉ g.tabs → (∀ h ∈ s.data, x ∉ h.tabs) → s2.tabs x = s.tabs x) := by
  by_cases hc : 0 ≤ s.currentView
  · have hlt : s.currentView.toNat < s.data.length := by
      rcases hcv with h | h
      · omega
      · exact h.2
    have hcg : dataAt s = some (s.data[s.currentView.toNat]) := by
      simp [dataAt, hc, List.getElem?_eq_getElem hlt]
    by_cases hmem : t ∈ (s.data[s.currentView.toNat]).tabs
    · have hb : (s.data[s.currentView.toNat]).tabs.contains t = true :=
        (contains_true_iff _ _).mpr hmem
      refine ⟨activateSplitView s g t, ?_, act_data _ _ _, act_selectedTab _ _ _, ?_,
        act_prefWorking _ _ _,
        fun m hm => ⟨act_docShell_mem _ _ _ _ hm, act_attrSplitActive_mem _ _ _ _ hm⟩,
        fun x hx _ => act_tabs_of_notMem _ _ _ _ hx⟩
      · simp only [updateSplitView, hfind, hcg, hb]
        rw [if_pos hc]
        simp
      · rw [act_currentView, hidx]
    · have hb : (s.data[s.currentView.toNat]).tabs.contains t = false := by
        rw [← Bool.not_eq_true, contains_true_iff]
        exact hmem
      set cg := s.data[s.currentView.toNat] with hcgdef
      set s1 := deactivateCore s cg with hs1
      have hd1 : s1.data = s.data := deact_data _ _
      refine ⟨activateSplitView s1 g t, ?_, by rw [act_data, hd1],
        by rw [act_selectedTab, hs1, deact_selectedTab], ?_, act_prefWorking _ _ _,
        fun m hm => ⟨act_docShell_mem _ _ _ _ hm, act_attrSplitActive_mem _ _ _ _ hm⟩,
        fun x hx hnx => ?_⟩
      · simp only [updateSplitView, hfind, hcg, hb]
        rw [if_pos hc]
        simp
      · rw [act_currentView, hd1, hidx]
      · rw [act_tabs_of_notMem _ _ _ _ hx, hs1,
          deact_tabs_of_notMem _ _ _ (hnx cg (List.getElem_mem hlt))]
  · refine ⟨activateSplitView s g t, ?_, act_data _ _ _, act_selectedTab _ _ _, ?_,
      act_prefWorking _ _ _,
      fun m hm => ⟨act_docShell_mem _ _ _ _ hm, act_attrSplitActive_mem _ _ _ _ hm⟩,
      fun x hx _ => act_tabs_of_notMem _ _ _ _ hx⟩
    · simp only [updateSplitView, hfind]
      rw [if_neg hc]
    · rw [act_currentView, hidx]

/-- `updateSplitView` for a tab of the unique group at index `gi` of a
pairwise-disjoint group list. -/
theorem updateSplitView_found {s : SVState} (hd : s.data.Pairwise DisjG) {gi : Nat}
    {g : Group} (hg : s.data[gi]? = some g) {t : TabId} (ht : t ∈ g.tabs)
    (hcv : s.currentView = -1 ∨ (0 ≤ s.currentView ∧ s.currentView.toNat < s.data.length)) :
    ∃ s2, updateSplitView s t = some s2 ∧
      s2.data = s.data ∧ s2.selectedTab = s.selectedTab ∧
      s2.currentView = (gi : Int) ∧ s2.prefWorking = true ∧
      (∀ m ∈ g.tabs, (s2.tabs m).docShellIsActive = true ∧
        (s2.tabs m).container.attrSplitActive = (m == t)) ∧
      (∀ x, x ∉ g.tabs → (∀ h ∈ s.data, x ∉ h.tabs) → s2.tabs x = s.tabs x) :=
  updateSplitView_found_core (find_contains_eq hd hg ht)
    (indexOf_eq_of_disj hd hg (List.ne_nil_of_mem ht)) hcv

/-- Any successful `updateSplitView` leaves the view invariant in place
(activation re-establishes it, deactivation trivially satisfies it). -/
theorem updateSplitView_viewInv {s : SVState} {t : TabId} {s2 : SVState}
    (hs : ViewInv s) (h : updateSplitView s t = some s2) : ViewInv s2 := by
  rcases hfind : s.data.find? (fun g => g.tabs.contains t) with _ | g
  · simp only [updateSplitView, hfind] at h
    by_cases hc : 0 ≤ s.currentView
    · rw [if_pos hc] at h
      rcases hda : dataAt s with _ | cg
      · rw [hda] at h; simp at h
      · rw [hda] at h
        simp only [Option.map_some', Option.some_inj] at h
        subst h
        exact Or.inl (deact_currentView _ _)
    · rw [if_neg hc, Option.some_inj] at h
      subst h
      exact hs
  · have hgm : g ∈ s.data := List.mem_of_find?_eq_some hfind
    have hinv : ∀ sb : SVState, sb.data = s.data → ViewInv (activateSplitView sb g t) := by
      intro sb hb
      right
      have hlt : s.data.indexOf g < s.data.length := List.indexOf_lt_length.mpr hgm
      have hcv2 : (activateSplitView sb g t).currentView = (s.data.indexOf g : Int) := by
        rw [act_currentView, hb]
      constructor
      · constructor
        · rw [hcv2]; omega
        · rw [hcv2, act_data, hb]
          simpa using hlt
      · unfold activeReceiving dataAt
        have hge : 0 ≤ (activateSplitView sb g t).currentView := by rw [hcv2]; omega
        rw [if_pos hge, hcv2]
        have hval : (activateSplitView sb g t).data[((s.data.indexOf g : Int)).toNat]? =
            some g := by
          rw [act_data, hb]
          simpa using (List.getElem?_eq_getElem hlt).trans
            (congrArg some (List.getElem_indexOf hlt))
        rw [hval]
        intro m hm
        exact act_docShell_mem _ _ _ _ hm
    simp only [updateSplitView, hfind] at h
    by_cases hc : 0 ≤ s.currentView
    · rw [if_pos hc] at h
      rcases hda : dataAt s with _ | cg
      · rw [hda] at h; simp at h
      · rw [hda] at h
        simp only [] at h
        by_cases hmem : cg.tabs.contains t
        · rw [if_pos hmem, Option.some_inj] at h
          subst h
          exact hinv s rfl
        · rw [if_neg hmem, Option.some_inj] at h
          subst h
          exact hinv _ (deact_data _ _)
    · rw [if_neg hc, Option.some_inj] at h
      subst h
      exact hinv s rfl


/-! ### Concrete example states -/

/-- Tab state of an activated member (order position `o`, active-highlight
`act`), as produced by activation. -/
def memTS (o : Nat) (act : Bool) : TabState :=
  { splitView := true
    spliting := true
    docShellIsActive := true
    container :=
      { attrSplit := true
        attrSplitActive := act
        attrSplitAnim := true
        deckSelected := false
        clickListener := true
        style :=
          { display := none
            flex := some "1"
            order := some (toString o)
            visibility := some "visible !important"
            mozSubtreeHiddenOnlyVisually := some "0" } } }

/-- A state with one active two-member group (tabs 1 and 2). -/
def exActive : SVState :=
  { data := [Group.mk [1, 2] "flex"]
    currentView := 0
    panel := { attrSplitView := true, flexDirection := some "column" }
    prefWorking := true
    tabs := fun t => if t = 1 then memTS 0 true else if t = 2 then memTS 1 false else {}
    selectedTab := some 1 }

/-- Like `exActive`, but tab 4 additionally carries a stale `splitView`
flag while belonging to no group (the state left behind when an inactive
group is destroyed: `removeGroup` only resets member state for the active
group). -/
def exStale : SVState :=
  { data := [Group.mk [1, 2] "flex"]
    currentView := 0
    panel := { attrSplitView := true, flexDirection := some "column" }
    prefWorking := true
    tabs := fun t =>
      if t = 1 then memTS 0 true
      else if t = 2 then memTS 1 false
      else if t = 4 then { splitView := true } else {}
    selectedTab := some 1 }

/-! ### Claim C9 -/

/-- C9: when no split view is active (`currentView = -1`),
`unsplitCurrentView()` dereferences a nonexistent group
(`this._data[-1]` is `undefined`) and throws instead of returning
silently; its precondition is an active split view. -/
theorem claim9_unsplit_requires_active (s : SVState) (h : s.currentView = -1) :
    unsplitCurrentView s = none := by
  unfold unsplitCurrentView
  have hda : dataAt s = none := by
    unfold dataAt
    rw [h]
    simp
  rw [hda]

/-- Witness for C9 at the freshly constructed manager state. -/
theorem claim9_witness :
    initState.currentView = -1 ∧ unsplitCurrentView initState = none :=
  ⟨rfl, claim9_unsplit_requires_active initState rfl⟩

/-! ### Claim C3 -/

/-- Counterexample to C3: with an active group, `updateSplitView` on a tab
belonging to no group is not a no-op: it deactivates the current view
(`currentView` drops from 0 to -1). -/
theorem claim3_cex :
    (∀ g ∈ exActive.data, (7 : TabId) ∉ g.tabs) ∧
    (updateSplitView exActive 7).map SVState.currentView = some (-1) ∧
    exActive.currentView = 0 := by
  refine ⟨by decide, ?_, rfl⟩
  rfl

theorem findIdx_contains_none {s : SVState} {t : TabId} (hn : ∀ g ∈ s.data, t ∉ g.tabs) :
    s.data.findIdx? (fun g => g.tabs.contains t) = none := by
  rw [List.findIdx?_eq_none_iff]
  intro g hg
  rw [← Bool.not_eq_true, contains_true_iff]
  exact hn g hg

/-- C3 (amended): for a tab in no group, `handleTabClose` is a silent
no-op; `updateSplitView` raises no error and is a no-op only when no view
is active, while with an active view it deactivates that view first and
then stops. -/
theorem claim3_unknown_tab (s : SVState) (t : TabId) (b : Bool)
    (hn : ∀ g ∈ s.data, t ∉ g.tabs) :
    handleTabClose s t b = some s ∧
    (¬ 0 ≤ s.currentView → updateSplitView s t = some s) ∧
    (∀ cg, dataAt s = some cg → updateSplitView s t = some (deactivateCore s cg)) := by
  refine ⟨?_, fun hcv => updateSplitView_noGroup_inactive hn hcv,
    fun cg hcg => updateSplitView_noGroup_active hn hcg⟩
  unfold handleTabClose
  rw [findIdx_contains_none hn]

/-- Witness for the amended C3 at a concrete state and tab. -/
theorem claim3_witness :
    (∀ g ∈ exActive.data, (7 : TabId) ∉ g.tabs) ∧
    handleTabClose exActive 7 true = some exActive ∧
    updateSplitView exActive 7 = some (deactivateCore exActive (Group.mk [1, 2] "flex")) := by
  have h := claim3_unknown_tab exActive 7 true (by decide)
  exact ⟨by decide, h.1, h.2.2 _ rfl⟩

/-! ### Claim C8 -/

/-- C8: after `activateSplitView(g, t)` for a member `t` of a group `g`
(at index `gi` of the pairwise-disjoint group list): `currentView` is `g`'s
index, every member is docshell-active, and exactly `t`'s container carries
the `split-active` marker. -/
theorem claim8_activate (s : SVState) (g : Group) (t : TabId) (gi : Nat)
    (hd : s.data.Pairwise DisjG) (hg : s.data[gi]? = some g) (ht : t ∈ g.tabs) :
    (activateSplitView s g t).currentView = (gi : Int) ∧
    (∀ m ∈ g.tabs, ((activateSplitView s g t).tabs m).docShellIsActive = true) ∧
    ((activateSplitView s g t).tabs t).container.attrSplitActive = true ∧
    (∀ m ∈ g.tabs, m ≠ t →
      ((activateSplitView s g t).tabs m).container.attrSplitActive = false) := by
  refine ⟨?_, fun m hm => act_docShell_mem _ _ _ _ hm, ?_, fun m hm hne => ?_⟩
  · rw [act_currentView, indexOf_eq_of_disj hd hg (List.ne_nil_of_mem ht)]
  · rw [act_attrSplitActive_mem _ _ _ _ ht]
    simp
  · rw [act_attrSplitActive_mem _ _ _ _ hm]
    simp [hne]

/-- Witness for C8 on a concrete state and group. -/
theorem claim8_witness :
    ((1 : TabId) ∈ (Group.mk [1, 2] "flex").tabs) ∧
    (activateSplitView exActive (Group.mk [1, 2] "flex") 1).currentView = (0 : Int) ∧
    ((activateSplitView exActive (Group.mk [1, 2] "flex") 1).tabs 1).container.attrSplitActive
      = true ∧
    ((activateSplitView exActive (Group.mk [1, 2] "flex") 1).tabs 2).container.attrSplitActive
      = false := by
  have h := claim8_activate exActive (Group.mk [1, 2] "flex") 1 0
    (by decide) (by decide) (by decide)
  exact ⟨by decide, h.1, h.2.2.1, h.2.2.2 2 (by decide) (by decide)⟩

/-! ### Claim C4 -/

/-- Counterexample to C4: in the reachable state `exStale`, the call
`splitTabs [4, 1]` has input tab 1 belonging to the existing group, yet it
creates a new group (group count 1 becomes 2): the re-activation guard
keys on the first input tab with the `splitView` flag (tab 4, stale and
groupless), not on group membership. -/
theorem claim4_cex :
    ((1 : TabId) ∈ (Group.mk [1, 2] "flex").tabs ∧ Group.mk [1, 2] "flex" ∈ exStale.data) ∧
    exStale.data.length = 1 ∧
    (splitTabs exStale [4, 1]).map (fun s2 => s2.data.length) = some 2 := by
  refine ⟨by decide, rfl, ?_⟩
  rfl

/-- C4 (amended): when the first input tab carrying the `splitView` flag
belongs to an existing group, `splitTabs` re-activates that group and
creates no new group: the group list (count and memberships) is unchanged
and that group becomes the current view with all members docshell-active. -/
theorem claim4_reactivate (s : SVState) (ts : List TabId) (et : TabId) (gi : Nat) (g : Group)
    (hfl : ts.find? (fun t => (s.tabs t).splitView) = some et)
    (hg : s.data[gi]? = some g) (het : et ∈ g.tabs)
    (hd : s.data.Pairwise DisjG)
    (hcv : s.currentView = -1 ∨ (0 ≤ s.currentView ∧ s.currentView.toNat < s.data.length)) :
    ∃ s2, splitTabs s ts = some s2 ∧ s2.data = s.data ∧ s2.currentView = (gi : Int) ∧
      (∀ m ∈ g.tabs, (s2.tabs m).docShellIsActive = true) := by
  obtain ⟨s2, heq, hdata, _, hcv2, _, hmem, _⟩ := updateSplitView_found hd hg het hcv
  refine ⟨s2, ?_, hdata, hcv2, fun m hm => (hmem m hm).1⟩
  simp only [splitTabs, hfl]
  have hidx : (s.data.findIdx? (fun h => h.tabs.contains et)).isSome = true := by
    rw [findIdx_contains_eq hd hg het]
    rfl
  rw [if_pos hidx, heq]

/-- Witness for the amended C4 on a concrete state. -/
theorem claim4_witness :
    (exActive.tabs 1).splitView = true ∧
    (∃ s2, splitTabs exActive [1, 5] = some s2 ∧ s2.data = exActive.data ∧
      s2.currentView = ((0 : Nat) : Int) ∧
      (∀ m ∈ (Group.mk [1, 2] "flex").tabs, (s2.tabs m).docShellIsActive = true)) := by
  refine ⟨by decide, ?_⟩
  exact claim4_reactivate exActive [1, 5] 1 0 (Group.mk [1, 2] "flex")
    (by decide) (by decide) (by decide) (by decide) (by decide)


/-! ### Claim C6: idempotence of re-activation -/

theorem dss_tabs_of_nodup (s : SVState) (l : List TabId) (b : Bool) (x : TabId)
    (hnd : l.Nodup) (hx : x ∈ l) :
    (setTabsDocShellState s l b).tabs x = dssUpd b (s.tabs x) := by
  have hkeys : (l.map id).Nodup := by simpa using hnd
  exact updTabsBy_tabs_of_nodup s l id (fun _ => dssUpd b) hkeys x hx

/-- With duplicate-free members, activation rewrites a member's tab state
to a value obtained by the layout update (at an index determined by the
member list) followed by the docshell update. -/
theorem act_tabs_mem_nodup (g : Group) (t : TabId) (x : TabId)
    (hnd : g.tabs.Nodup) (hx : x ∈ g.tabs) :
    ∃ i, ∀ s : SVState,
      (activateSplitView s g t).tabs x =
        dssUpd true (flexUpd i (x == t)
          (if g.flexType = "" then "flex" else g.flexType) (s.tabs x)) := by
  obtain ⟨i, hi⟩ := afb_tabs_of_nodup g.tabs
    (if g.flexType = "" then "flex" else g.flexType) t x hnd hx
  refine ⟨i, fun s => ?_⟩
  unfold activateSplitView
  rw [dss_tabs_of_nodup _ _ _ _ hnd hx, hi]

/-- The per-tab activation update is idempotent: all its writes are
overwrites with values that do not depend on the previous tab state. -/
theorem actUpd_idem (v : TabState) (i : Nat) (b : Bool) (ft : String) :
    dssUpd true (flexUpd i b ft (dssUpd true (flexUpd i b ft v))) =
      dssUpd true (flexUpd i b ft v) := by
  by_cases hft : ft = "flex" <;>
    simp [dssUpd, flexUpd, styleContainer, hft]

/-- Re-activating the already active group with the same active tab is a
state-level fixed point. -/
theorem act_idem (s : SVState) (g : Group) (t : TabId) (hnd : g.tabs.Nodup) :
    activateSplitView (activateSplitView s g t) g t = activateSplitView s g t := by
  apply SVState.ext
  · rw [act_data, act_data]
  · rw [act_currentView, act_currentView, act_data]
  · rw [act_panel, act_panel]
  · rw [act_prefWorking, act_prefWorking]
  · funext x
    by_cases hx : x ∈ g.tabs
    · obtain ⟨i, hi⟩ := act_tabs_mem_nodup g t x hnd hx
      rw [hi (activateSplitView s g t), hi s, actUpd_idem]
    · rw [act_tabs_of_notMem _ _ _ _ hx]
  · rw [act_selectedTab, act_selectedTab]

/-- C6: for a tab already in the active group, `updateSplitView` twice in
succession produces the same final state (panel and container attributes,
inline styles, docshell flags, currentView) as calling it once. -/
theorem claim6_idempotent (s : SVState) (t : TabId) (cg : Group)
    (hd : s.data.Pairwise DisjG) (hcg : dataAt s = some cg) (ht : t ∈ cg.tabs)
    (hnd : ∀ g ∈ s.data, g.tabs.Nodup) :
    ∃ s2, updateSplitView s t = some s2 ∧ updateSplitView s2 t = some s2 := by
  have hc : 0 ≤ s.currentView := by
    by_contra hlt
    simp [dataAt, hlt] at hcg
  have hgv : s.data[s.currentView.toNat]? = some cg := by
    unfold dataAt at hcg
    rwa [if_pos hc] at hcg
  have hcgm : cg ∈ s.data := List.getElem?_mem hgv
  have hb : cg.tabs.contains t = true := (contains_true_iff _ _).mpr ht
  have hfind : s.data.find? (fun h => h.tabs.contains t) = some cg :=
    find_contains_eq hd hgv ht
  have hndcg : cg.tabs.Nodup := hnd cg hcgm
  refine ⟨activateSplitView s cg t, ?_, ?_⟩
  · simp only [updateSplitView, hfind, hcg, hb]
    rw [if_pos hc]
    simp
  · set s2 := activateSplitView s cg t with hs2
    have hdata2 : s2.data = s.data := act_data _ _ _
    have hlt : s.data.indexOf cg < s.data.length := List.indexOf_lt_length.mpr hcgm
    have hcv2 : s2.currentView = (s.data.indexOf cg : Int) := act_currentView _ _ _
    have hc2 : 0 ≤ s2.currentView := by rw [hcv2]; omega
    have hfind2 : s2.data.find? (fun h => h.tabs.contains t) = some cg := by
      rw [hdata2]; exact hfind
    have hda2 : dataAt s2 = some cg := by
      unfold dataAt
      rw [if_pos hc2, hcv2, hdata2]
      simpa using (List.getElem?_eq_getElem hlt).trans
        (congrArg some (List.getElem_indexOf hlt))
    simp only [updateSplitView, hfind2, hda2, hb]
    rw [if_pos hc2]
    simp only [if_true]
    rw [hs2, act_idem s cg t hndcg]

/-- Witness for C6 on a concrete active group. -/
theorem claim6_witness :
    dataAt exActive = some (Group.mk [1, 2] "flex") ∧
    (∃ s2, updateSplitView exActive 2 = some s2 ∧ updateSplitView s2 2 = some s2) := by
  refine ⟨rfl, ?_⟩
  exact claim6_idempotent exActive 2 (Group.mk [1, 2] "flex")
    (by decide) rfl (by decide) (by decide)


/-! ### Facts about resetSplitView, removeGroup, removeTabFromGroup -/

theorem eraseIdx_set_same (l : List Group) (i : Nat) (a : Group) :
    (l.set i a).eraseIdx i = l.eraseIdx i := by
  apply List.ext_getElem?
  intro j
  rw [List.getElem?_eraseIdx, List.getElem?_eraseIdx]
  split
  · exact List.getElem?_set_ne (by omega)
  · exact List.getElem?_set_ne (by omega)

theorem mem_of_getLast?_eq_some {l : List TabId} {a : TabId} (h : l.getLast? = some a) :
    a ∈ l := by
  obtain ⟨ys, rfl⟩ := List.getLast?_eq_some_iff.mp h
  simp

theorem resetTabState_data (s : SVState) (t : TabId) (b : Bool) :
    (resetTabState s t b).data = s.data := rfl

theorem resetTabState_currentView (s : SVState) (t : TabId) (b : Bool) :
    (resetTabState s t b).currentView = s.currentView := rfl

theorem resetTabState_selectedTab (s : SVState) (t : TabId) (b : Bool) :
    (resetTabState s t b).selectedTab = s.selectedTab := rfl

theorem resetTabState_tabs_other (s : SVState) (t x : TabId) (b : Bool) (h : x ≠ t) :
    (resetTabState s t b).tabs x = s.tabs x := updTab_tabs_other _ _ _ _ h

/-- `resetSplitView` on a state whose `currentView` resolves to a group:
the group list survives, the view becomes "none". -/
theorem resetSplitView_some {s : SVState} {g : Group} (hg : dataAt s = some g) :
    ∃ s3, resetSplitView s = some s3 ∧ s3.data = s.data ∧ s3.currentView = -1 ∧
      s3.selectedTab = s.selectedTab ∧ s3.prefWorking = false := by
  unfold resetSplitView
  rw [hg]
  exact ⟨_, rfl, updTabsBy_data _ _ _ _, rfl, updTabsBy_selectedTab _ _ _ _, rfl⟩

/-- `removeGroup` on an index other than the current view only splices the
group list. -/
theorem removeGroup_ne {s : SVState} {i : Nat} (hne : s.currentView ≠ (i : Int)) :
    removeGroup s i = some { s with data := s.data.eraseIdx i } := by
  unfold removeGroup
  rw [if_neg hne]
  rfl

/-- `removeGroup` on the current view first resets the split view. -/
theorem removeGroup_eq {s : SVState} {i : Nat} {g : Group}
    (heq : s.currentView = (i : Int)) (hg : dataAt s = some g) :
    ∃ s3, removeGroup s i = some s3 ∧ s3.data = s.data.eraseIdx i ∧
      s3.currentView = -1 ∧ s3.selectedTab = s.selectedTab := by
  obtain ⟨sr, hsr, hdata, hcv, hsel, _⟩ := resetSplitView_some hg
  unfold removeGroup
  rw [if_pos heq, hsr]
  refine ⟨_, rfl, ?_, ?_, ?_⟩
  · show sr.data.eraseIdx i = s.data.eraseIdx i
    rw [hdata]
  · show sr.currentView = -1
    exact hcv
  · show sr.selectedTab = s.selectedTab
    exact hsel

/-! ### Claim C7 -/

/-- C7: closing a member of a 2-member group destroys the group (no former
member is found in any group afterwards); closing a member of a 3+-member
group leaves the group with the remaining members in their original
relative order and re-activates the layout with the new last member as the
active (split-active) member. -/
theorem claim7_close (s : SVState) (t : TabId) (gi : Nat) (g : Group) (forUnsplit : Bool)
    (hd : s.data.Pairwise DisjG)
    (hg : s.data[gi]? = some g) (ht : t ∈ g.tabs)
    (hcv : s.currentView = -1 ∨ (0 ≤ s.currentView ∧ s.currentView.toNat < s.data.length)) :
    (g.tabs.length = 2 →
      ∃ s2, handleTabClose s t forUnsplit = some s2 ∧
        s2.data = s.data.eraseIdx gi ∧
        (∀ m ∈ g.tabs, s2.data.findIdx? (fun h => h.tabs.contains m) = none)) ∧
    (3 ≤ g.tabs.length →
      ∃ s2 last, handleTabClose s t forUnsplit = some s2 ∧
        s2.data = s.data.set gi (Group.mk (g.tabs.erase t) g.flexType) ∧
        (g.tabs.erase t).getLast? = some last ∧
        s2.currentView = (gi : Int) ∧
        (s2.tabs last).container.attrSplitActive = true ∧
        (∀ m ∈ g.tabs.erase t, m ≠ last →
          (s2.tabs m).container.attrSplitActive = false)) := by
  have hgi_lt : gi < s.data.length := (List.getElem?_eq_some_iff.mp hg).1
  have hfidx : s.data.findIdx? (fun h => h.tabs.contains t) = some gi :=
    findIdx_contains_eq hd hg ht
  have hsplice : spliceOut g.tabs t = g.tabs.erase t := spliceOut_eq_erase ht
  have herase_len : (g.tabs.erase t).length = g.tabs.length - 1 := by
    rw [List.length_erase]
    simp [ht]
  set g1 : Group := Group.mk (g.tabs.erase t) g.flexType with hg1
  set sa : SVState := { s with data := s.data.set gi g1 } with hsa
  set sb : SVState := resetTabState sa t forUnsplit with hsb
  have hsb_data : sb.data = s.data.set gi g1 := rfl
  have hsb_cv : sb.currentView = s.currentView := rfl
  have hmain : handleTabClose s t forUnsplit =
      (if (g.tabs.erase t).length < 2 then removeGroup sb gi
       else match (g.tabs.erase t).getLast? with
            | some last => updateSplitView sb last
            | none => none) := by
    simp only [handleTabClose, hfidx, removeTabFromGroup, hg]
    rw [hsplice]
  constructor
  · -- two-member group: destroyed
    intro hlen2
    have hlt2 : (g.tabs.erase t).length < 2 := by omega
    rw [hmain, if_pos hlt2]
    have hdestroyed : ∃ s2, removeGroup sb gi = some s2 ∧ s2.data = s.data.eraseIdx gi := by
      by_cases hveq : sb.currentView = (gi : Int)
      · have hda : dataAt sb = some g1 := by
          unfold dataAt
          rw [hveq, if_pos (by exact_mod_cast Nat.zero_le gi)]
          have htn : ((gi : Int)).toNat = gi := by omega
          rw [htn, hsb_data]
          exact List.getElem?_set_self (by simpa using hgi_lt)
        obtain ⟨s3, hs3, hdata, _, _⟩ := removeGroup_eq hveq hda
        exact ⟨s3, hs3, by rw [hdata, hsb_data, eraseIdx_set_same]⟩
      · refine ⟨_, removeGroup_ne hveq, ?_⟩
        rw [hsb_data, eraseIdx_set_same]
    obtain ⟨s2, hs2, hdata⟩ := hdestroyed
    refine ⟨s2, hs2, hdata, fun m hm => ?_⟩
    rw [List.findIdx?_eq_none_iff]
    intro h hh
    rw [← Bool.not_eq_true, contains_true_iff]
    rw [hdata] at hh
    obtain ⟨j2, hj2lt, hj2⟩ := List.mem_iff_getElem.mp hh
    have hj2some : (s.data.eraseIdx gi)[j2]? = some h := by
      rw [List.getElem?_eq_getElem hj2lt, hj2]
    rw [List.getElem?_eraseIdx] at hj2some
    by_cases hjlt : j2 < gi
    · rw [if_pos hjlt] at hj2some
      exact disj_not_mem_other hd hg hm hj2some (by omega)
    · rw [if_neg hjlt] at hj2some
      exact disj_not_mem_other hd hg hm hj2some (by omega)
  · -- three-or-more-member group: shrunk and re-activated
    intro hlen3
    have hnlt : ¬ (g.tabs.erase t).length < 2 := by omega
    have hne : g.tabs.erase t ≠ [] := by
      intro hnil
      rw [hnil] at herase_len
      simp at herase_len
      omega
    obtain ⟨last, hlast⟩ : ∃ last, (g.tabs.erase t).getLast? = some last := by
      rcases hl : (g.tabs.erase t).getLast? with _ | last
      · rw [List.getLast?_eq_getElem?] at hl
        rw [List.getElem?_eq_getElem (by omega)] at hl
        cases hl
      · exact ⟨last, rfl⟩
    rw [hmain, if_neg hnlt, hlast]
    have hlast_mem : last ∈ g1.tabs := mem_of_getLast?_eq_some hlast
    have hd1 : sb.data.Pairwise DisjG := by
      rw [hsb_data]
      exact pairwise_disj_set hd hg (fun x hx => List.erase_subset _ _ hx)
    have hg1v : sb.data[gi]? = some g1 := by
      rw [hsb_data]
      exact List.getElem?_set_self (by simpa using hgi_lt)
    have hcv1 : sb.currentView = -1 ∨
        (0 ≤ sb.currentView ∧ sb.currentView.toNat < sb.data.length) := by
      rw [hsb_cv, hsb_data, List.length_set]
      exact hcv
    obtain ⟨s2, hs2, hdata2, _, hcv2, _, hmem2, _⟩ :=
      updateSplitView_found hd1 hg1v hlast_mem hcv1
    refine ⟨s2, last, hs2, by rw [hdata2, hsb_data], rfl, hcv2, ?_, fun m hm hmne => ?_⟩
    · have := (hmem2 last hlast_mem).2
      simpa using this
    · have := (hmem2 m hm).2
      rw [this]
      simp [hmne]

/-- A state with one active three-member group (tabs 1, 2, 3). -/
def exActive3 : SVState :=
  { data := [Group.mk [1, 2, 3] "flex"]
    currentView := 0
    panel := { attrSplitView := true, flexDirection := some "column" }
    prefWorking := true
    tabs := fun t =>
      if t = 1 then memTS 0 true
      else if t = 2 then memTS 1 false
      else if t = 3 then memTS 2 false else {}
    selectedTab := some 1 }

/-- Witness for C7: the 2-member part at `exActive` (closing tab 1) and the
3-member part at `exActive3` (closing tab 2, leaving [1, 3] with 3 as the
new last, split-active member). -/
theorem claim7_witness :
    ((1 : TabId) ∈ (Group.mk [1, 2] "flex").tabs ∧ (Group.mk [1, 2] "flex").tabs.length = 2 ∧
      ∃ s2, handleTabClose exActive 1 false = some s2 ∧
        s2.data = exActive.data.eraseIdx 0 ∧
        (∀ m ∈ (Group.mk [1, 2] "flex").tabs,
          s2.data.findIdx? (fun h => h.tabs.contains m) = none)) ∧
    ((2 : TabId) ∈ (Group.mk [1, 2, 3] "flex").tabs ∧
      3 ≤ (Group.mk [1, 2, 3] "flex").tabs.length ∧
      ∃ s2 last, handleTabClose exActive3 2 false = some s2 ∧
        s2.data = exActive3.data.set 0 (Group.mk ((Group.mk [1, 2, 3] "flex").tabs.erase 2)
          (Group.mk [1, 2, 3] "flex").flexType) ∧
        ((Group.mk [1, 2, 3] "flex").tabs.erase 2).getLast? = some last ∧
        s2.currentView = ((0 : Nat) : Int) ∧
        (s2.tabs last).container.attrSplitActive = true ∧
        (∀ m ∈ (Group.mk [1, 2, 3] "flex").tabs.erase 2, m ≠ last →
          (s2.tabs m).container.attrSplitActive = false)) := by
  constructor
  · refine ⟨by decide, by decide, ?_⟩
    exact (claim7_close exActive 1 0 (Group.mk [1, 2] "flex") false
      (by decide) (by decide) (by decide) (by decide)).1 (by decide)
  · refine ⟨by decide, by decide, ?_⟩
    exact (claim7_close exActive3 2 0 (Group.mk [1, 2, 3] "flex") false
      (by decide) (by decide) (by decide) (by decide)).2 (by decide)


/-! ### Claim C5 -/

/-- A sequence of `splitTabs` calls. -/
def splitTabsSeq (s : SVState) (calls : List (List TabId)) : Option SVState :=
  calls.foldlM (fun acc c => splitTabs acc c) s

theorem splitTabsSeq_cons (s : SVState) (c : List TabId) (rest : List (List TabId)) :
    splitTabsSeq s (c :: rest) = (splitTabs s c).bind (fun s1 => splitTabsSeq s1 rest) := rfl

/-- `splitTabs` with a nonempty input disjoint from every existing group
appends one new group (with the input as members, in order) and makes it
the current view. -/
theorem splitTabs_new {s : SVState} {c : List TabId} (hne : c ≠ [])
    (hdisj : ∀ g ∈ s.data, ∀ t ∈ c, t ∉ g.tabs)
    (hcv : s.currentView = -1 ∨ (0 ≤ s.currentView ∧ s.currentView.toNat < s.data.length)) :
    ∃ s1, splitTabs s c = some s1 ∧
      s1.data = s.data ++ [Group.mk c "flex"] ∧
      s1.currentView = (s.data.length : Int) := by
  obtain ⟨t0, c2, rfl⟩ : ∃ t0 c2, c = t0 :: c2 := by
    cases c with
    | nil => exact absurd rfl hne
    | cons a l => exact ⟨a, l, rfl⟩
  set gnew : Group := Group.mk (t0 :: c2) "flex" with hgnew
  set sp : SVState :=
    { s with data := s.data ++ [gnew], selectedTab := some t0 } with hsp
  have hstep : splitTabs s (t0 :: c2) = updateSplitView sp t0 := by
    have hnew : splitTabsNew s (t0 :: c2) = updateSplitView sp t0 := by
      simp only [splitTabsNew, List.head?]
    unfold splitTabs
    rcases hfl : (t0 :: c2).find? (fun t => (s.tabs t).splitView) with _ | et
    · exact hnew
    · have het : et ∈ t0 :: c2 := List.mem_of_find?_eq_some hfl
      have hnone : s.data.findIdx? (fun g => g.tabs.contains et) = none := by
        rw [List.findIdx?_eq_none_iff]
        intro g hg
        rw [← Bool.not_eq_true, contains_true_iff]
        exact hdisj g hg et het
      simp only [hnone, Option.isSome_none, Bool.false_eq_true, if_false]
      exact hnew
  have hfs : s.data.find? (fun h => h.tabs.contains t0) = none := by
    rw [List.find?_eq_none]
    intro g hg
    rw [contains_true_iff]
    exact hdisj g hg t0 (by simp)
  have hfind : sp.data.find? (fun h => h.tabs.contains t0) = some gnew := by
    show (s.data ++ [gnew]).find? (fun h => h.tabs.contains t0) = some gnew
    rw [List.find?_append, hfs]
    simp [hgnew]
  have hnotm : gnew ∉ s.data := fun hmem => hdisj gnew hmem t0 (by simp [hgnew]) (by simp [hgnew])
  have hidx : sp.data.indexOf gnew = s.data.length := by
    show (s.data ++ [gnew]).indexOf gnew = s.data.length
    rw [List.indexOf_append_of_not_mem hnotm]
    simp
  have hcvp : sp.currentView = -1 ∨
      (0 ≤ sp.currentView ∧ sp.currentView.toNat < sp.data.length) := by
    show s.currentView = -1 ∨
      (0 ≤ s.currentView ∧ s.currentView.toNat < (s.data ++ [gnew]).length)
    rcases hcv with h | h
    · exact Or.inl h
    · refine Or.inr ⟨h.1, ?_⟩
      rw [List.length_append]
      omega
  obtain ⟨s1, hs1, hdata1, _, hcv1, _, _, _⟩ := updateSplitView_found_core hfind hidx hcvp
  exact ⟨s1, by rw [hstep, hs1], by rw [hdata1], hcv1⟩

/-- C5 (amended): a sequence of `splitTabs` calls with pairwise-disjoint
nonempty inputs, all disjoint from the pre-existing groups, appends one
group per call in call order, with each group's membership the call's
input in input order; the final group count is the pre-existing count plus
the number of calls. -/
theorem claim5_sequence (s : SVState) (calls : List (List TabId))
    (hcv : s.currentView = -1 ∨ (0 ≤ s.currentView ∧ s.currentView.toNat < s.data.length))
    (hne : ∀ c ∈ calls, c ≠ [])
    (hdisj0 : ∀ c ∈ calls, ∀ g ∈ s.data, ∀ t ∈ c, t ∉ g.tabs)
    (hpw : calls.Pairwise (fun a b => ∀ t ∈ a, t ∉ b)) :
    ∃ s2, splitTabsSeq s calls = some s2 ∧
      s2.data = s.data ++ calls.map (fun c => Group.mk c "flex") ∧
      s2.data.length = s.data.length + calls.length := by
  induction calls generalizing s with
  | nil => exact ⟨s, rfl, by simp, by simp⟩
  | cons c rest ih =>
      rw [List.pairwise_cons] at hpw
      obtain ⟨s1, hs1, hdata1, hcv1⟩ := splitTabs_new (hne c (by simp))
        (fun g hg t htc => hdisj0 c (by simp) g hg t htc) hcv
      have hcv1b : s1.currentView = -1 ∨
          (0 ≤ s1.currentView ∧ s1.currentView.toNat < s1.data.length) := by
        right
        constructor
        · rw [hcv1]; omega
        · rw [hcv1, hdata1, List.length_append]
          simp
      have hdisj1 : ∀ c2 ∈ rest, ∀ g ∈ s1.data, ∀ t ∈ c2, t ∉ g.tabs := by
        intro c2 hc2 g hg t htc
        rw [hdata1, List.mem_append] at hg
        rcases hg with hg | hg
        · exact hdisj0 c2 (by simp [hc2]) g hg t htc
        · simp only [List.mem_singleton] at hg
          subst hg
          intro htg
          exact hpw.1 c2 hc2 t htg htc
      obtain ⟨s2, hs2, hdata2, _⟩ :=
        ih s1 hcv1b (fun c2 hc2 => hne c2 (by simp [hc2])) hdisj1 hpw.2
      refine ⟨s2, ?_, ?_, ?_⟩
      · rw [splitTabsSeq_cons, hs1]
        simpa using hs2
      · rw [hdata2, hdata1]
        simp
      · rw [hdata2, hdata1]
        simp [List.length_append]

/-- A state with one pre-existing (inactive) two-member group. -/
def exOneInactive : SVState :=
  { data := [Group.mk [1, 2] "flex"]
    currentView := -1
    panel := {}
    prefWorking := false
    tabs := fun t => if t = 1 ∨ t = 2 then { splitView := true } else {}
    selectedTab := some 1 }

/-- Counterexample to C5 as stated: one `splitTabs` call whose input is
disjoint from the single pre-existing group yields two groups, not one
(the number of calls): the claimed count ignores pre-existing groups. -/
theorem claim5_cex :
    (∀ c ∈ ([[5, 6]] : List (List TabId)), c ≠ [] ∧
      ∀ g ∈ exOneInactive.data, ∀ t ∈ c, t ∉ g.tabs) ∧
    ([[5, 6]] : List (List TabId)).length = 1 ∧
    (splitTabsSeq exOneInactive [[5, 6]]).map (fun s2 => s2.data.length) = some 2 := by
  refine ⟨by decide, rfl, ?_⟩
  rfl

/-- Witness for the amended C5: two disjoint calls on top of one
pre-existing group. -/
theorem claim5_witness :
    (∃ s2, splitTabsSeq exOneInactive [[5, 6], [7, 8, 9]] = some s2 ∧
      s2.data = exOneInactive.data ++
        ([[5, 6], [7, 8, 9]] : List (List TabId)).map (fun c => Group.mk c "flex") ∧
      s2.data.length = exOneInactive.data.length +
        ([[5, 6], [7, 8, 9]] : List (List TabId)).length) := by
  exact claim5_sequence exOneInactive [[5, 6], [7, 8, 9]]
    (by decide) (by decide) (by decide) (by decide)


/-! ### Claim C10 -/

/-- `updateSplitView` for a tab with a group while a different group is the
current view: the current view is deactivated, then the tab's group is
activated. -/
theorem updateSplitView_switch {s : SVState} {t : TabId} {g cg : Group}
    (hfind : s.data.find? (fun x => x.tabs.contains t) = some g)
    (hcg : dataAt s = some cg) (hnot : t ∉ cg.tabs) :
    updateSplitView s t = some (activateSplitView (deactivateCore s cg) g t) := by
  have hc : 0 ≤ s.currentView := by
    by_contra hlt
    simp [dataAt, hlt] at hcg
  have hb : cg.tabs.contains t = false := by
    rw [← Bool.not_eq_true, contains_true_iff]
    exact hnot
  simp only [updateSplitView, hfind, hcg, hb]
  rw [if_pos hc]
  simp

/-- C10: with group `g` active (index `gi`) and a different group `h`
(index `hi`) having 3 or more members, closing a member of `h` deactivates
`g` (all its members lose docshell-active) and activates the shrunken `h`,
with `h`'s new last member as the split-active member; in particular the
close is not activation-neutral (`currentView` changes). -/
theorem claim10_close_other (s : SVState) (t : TabId) (gi hi : Nat) (g h : Group)
    (fu : Bool) (hd : s.data.Pairwise DisjG)
    (hgv : s.data[gi]? = some g) (hhv : s.data[hi]? = some h)
    (hne : hi ≠ gi) (hcv : s.currentView = (gi : Int))
    (hlen : 3 ≤ h.tabs.length) (ht : t ∈ h.tabs) :
    ∃ s2 last, handleTabClose s t fu = some s2 ∧
      (h.tabs.erase t).getLast? = some last ∧
      s2.currentView = (hi : Int) ∧
      s2.currentView ≠ s.currentView ∧
      (∀ m ∈ g.tabs, (s2.tabs m).docShellIsActive = false) ∧
      (s2.tabs last).container.attrSplitActive = true := by
  have hhi_lt : hi < s.data.length := (List.getElem?_eq_some_iff.mp hhv).1
  have hfidx : s.data.findIdx? (fun x => x.tabs.contains t) = some hi :=
    findIdx_contains_eq hd hhv ht
  have hsplice : spliceOut h.tabs t = h.tabs.erase t := spliceOut_eq_erase ht
  have herase_len : (h.tabs.erase t).length = h.tabs.length - 1 := by
    rw [List.length_erase]
    simp [ht]
  set h1 : Group := Group.mk (h.tabs.erase t) h.flexType with hh1
  set sa : SVState := { s with data := s.data.set hi h1 } with hsa
  set sb : SVState := resetTabState sa t fu with hsb
  have hsb_data : sb.data = s.data.set hi h1 := rfl
  have hsb_cv : sb.currentView = s.currentView := rfl
  have hnlt : ¬ (h.tabs.erase t).length < 2 := by omega
  obtain ⟨last, hlast⟩ : ∃ last, (h.tabs.erase t).getLast? = some last := by
    rcases hl : (h.tabs.erase t).getLast? with _ | last
    · rw [List.getLast?_eq_getElem?, List.getElem?_eq_getElem (by omega)] at hl
      cases hl
    · exact ⟨last, rfl⟩
  have hmain : handleTabClose s t fu = updateSplitView sb last := by
    simp only [handleTabClose, hfidx, removeTabFromGroup, hhv]
    rw [hsplice, if_neg hnlt, hlast]
  have hlast_mem : last ∈ h1.tabs := mem_of_getLast?_eq_some hlast
  have hlast_memh : last ∈ h.tabs := List.erase_subset _ _ hlast_mem
  have hd1 : sb.data.Pairwise DisjG := by
    rw [hsb_data]
    exact pairwise_disj_set hd hhv (fun x hx => List.erase_subset _ _ hx)
  have hh1v : sb.data[hi]? = some h1 := by
    rw [hsb_data]
    exact List.getElem?_set_self (by simpa using hhi_lt)
  have hgv1 : sb.data[gi]? = some g := by
    rw [hsb_data, List.getElem?_set_ne hne]
    exact hgv
  have hfind1 : sb.data.find? (fun x => x.tabs.contains last) = some h1 :=
    find_contains_eq hd1 hh1v hlast_mem
  have hcg1 : dataAt sb = some g := by
    unfold dataAt
    rw [hsb_cv, hcv, if_pos (by exact_mod_cast Nat.zero_le gi)]
    have htn : ((gi : Int)).toNat = gi := by omega
    rw [htn]
    exact hgv1
  have hnot1 : last ∉ g.tabs :=
    disj_not_mem_other hd hhv hlast_memh hgv (fun heq => hne heq.symm)
  have hupd : updateSplitView sb last =
      some (activateSplitView (deactivateCore sb g) h1 last) :=
    updateSplitView_switch hfind1 hcg1 hnot1
  set s2 : SVState := activateSplitView (deactivateCore sb g) h1 last with hs2
  have hdeact_data : (deactivateCore sb g).data = sb.data := deact_data _ _
  have hcv2 : s2.currentView = (hi : Int) := by
    rw [hs2, act_currentView, hdeact_data]
    rw [indexOf_eq_of_disj hd1 hh1v (List.ne_nil_of_mem hlast_mem)]
  refine ⟨s2, last, by rw [hmain, hupd], hlast, hcv2, ?_, fun m hm => ?_, ?_⟩
  · rw [hcv2, hcv]
    intro heq
    exact hne (by exact_mod_cast heq)
  · have hmnh : m ∉ h.tabs := fun hmh =>
      disj_not_mem_other hd hhv hmh hgv (fun heq => hne heq.symm) hm
    have hmnh1 : m ∉ h1.tabs := fun hmh1 => hmnh (List.erase_subset _ _ hmh1)
    rw [hs2, act_tabs_of_notMem _ _ _ _ hmnh1]
    exact deact_docShell_mem _ _ _ hm
  · rw [hs2, act_attrSplitActive_mem _ _ _ _ hlast_mem]
    simp

/-- A state with an active two-member group (index 0) and an inactive
three-member group (index 1). -/
def exTwoGroups : SVState :=
  { data := [Group.mk [1, 2] "flex", Group.mk [3, 4, 5] "flex"]
    currentView := 0
    panel := { attrSplitView := true, flexDirection := some "column" }
    prefWorking := true
    tabs := fun t =>
      if t = 1 then memTS 0 true
      else if t = 2 then memTS 1 false
      else if t = 3 ∨ t = 4 ∨ t = 5 then { splitView := true } else {}
    selectedTab := some 1 }

/-- Witness for C10: closing tab 4 of the inactive group [3, 4, 5] while
[1, 2] is active. -/
theorem claim10_witness :
    exTwoGroups.currentView = ((0 : Nat) : Int) ∧
    (∃ s2 last, handleTabClose exTwoGroups 4 false = some s2 ∧
      ((Group.mk [3, 4, 5] "flex").tabs.erase 4).getLast? = some last ∧
      s2.currentView = ((1 : Nat) : Int) ∧
      s2.currentView ≠ exTwoGroups.currentView ∧
      (∀ m ∈ (Group.mk [1, 2] "flex").tabs, (s2.tabs m).docShellIsActive = false) ∧
      (s2.tabs last).container.attrSplitActive = true) := by
  refine ⟨rfl, ?_⟩
  exact claim10_close_other exTwoGroups 4 0 1 (Group.mk [1, 2] "flex")
    (Group.mk [3, 4, 5] "flex") false (by decide) (by decide) (by decide)
    (by decide) (by decide) (by decide) (by decide)


/-! ### The unsplit loop -/

/-- The elements at even positions (0-based) of a list. -/
def everyOther : List TabId → List TabId
  | [] => []
  | [a] => [a]
  | a :: _ :: rest => a :: everyOther rest

theorem drop_eraseIdx_succ (l : List TabId) (i : Nat) (h : i < l.length) :
    (l.eraseIdx i).drop (i + 1) = l.drop (i + 2) := by
  rw [List.eraseIdx_eq_take_drop_succ, List.drop_append_eq_append_drop]
  have hlt : (List.take i l).length = i := by
    rw [List.length_take]
    omega
  rw [List.drop_eq_nil_of_le (by rw [hlt]; omega), hlt]
  have h1 : i + 1 - i = 1 := by omega
  rw [h1, List.nil_append, List.drop_drop]

theorem everyOther_cons_drop (l : List TabId) (i : Nat) (h : i < l.length) :
    everyOther (l.drop i) = l[i] :: everyOther (l.drop (i + 2)) := by
  have hsplit : l.drop i = l[i] :: l.drop (i + 1) := (List.getElem_cons_drop l i h).symm
  rw [hsplit]
  rcases hd1 : l.drop (i + 1) with _ | ⟨b, rest2⟩
  · have hlen : l.length ≤ i + 1 := by
      have hlen0 := congrArg List.length hd1
      simp [List.length_drop] at hlen0
      omega
    have hnil : l.drop (i + 2) = [] := List.drop_eq_nil_of_le (by omega)
    rw [hnil]
    rfl
  · have hrest : l.drop (i + 2) = rest2 := by
      have hdd : l.drop (i + 2) = (l.drop (i + 1)).drop 1 := by
        rw [List.drop_drop]
      rw [hdd, hd1]
      rfl
    rw [hrest]
    rfl

/-- Well-formedness survives replacing a group by a duplicate-free subset
of itself with at least two members. -/
theorem wf_data_set {s : SVState} (hwf : WF s) {gi : Nat} {g g1 : Group}
    (hg : s.data[gi]? = some g) (hsub : g1.tabs ⊆ g.tabs) (hnd1 : g1.tabs.Nodup)
    (hlen1 : 2 ≤ g1.tabs.length) {s2 : SVState} (hd2 : s2.data = s.data.set gi g1) :
    WF s2 := by
  refine ⟨?_, ?_, ?_⟩
  · intro h hh
    rw [hd2] at hh
    rcases List.mem_or_eq_of_mem_set hh with hmem | rfl
    · exact hwf.sizes h hmem
    · exact hlen1
  · intro h hh
    rw [hd2] at hh
    rcases List.mem_or_eq_of_mem_set hh with hmem | rfl
    · exact hwf.nodups h hmem
    · exact hnd1
  · rw [hd2]
    exact pairwise_disj_set hwf.disj hg hsub

/-- Well-formedness survives removing a group. -/
theorem wf_data_eraseIdx {s : SVState} (hwf : WF s) {i : Nat} {s2 : SVState}
    (hd2 : s2.data = s.data.eraseIdx i) : WF s2 := by
  refine ⟨?_, ?_, ?_⟩
  · intro h hh
    rw [hd2] at hh
    exact hwf.sizes h ((List.eraseIdx_sublist _ _).subset hh)
  · intro h hh
    rw [hd2] at hh
    exact hwf.nodups h ((List.eraseIdx_sublist _ _).subset hh)
  · rw [hd2]
    exact List.Pairwise.sublist (List.eraseIdx_sublist _ _) hwf.disj

/-- Master lemma for the `unsplitCurrentView` loop over the live member
array of the active (well-formed) group: the loop succeeds, invokes the
close path exactly for the members at even positions (from `i` on), never
touches the selected tab, and leaves a state satisfying the view invariant. -/
theorem unsplitLoop_spec (fuel : Nat) : ∀ (s : SVState) (live : List TabId) (gi i : Nat)
    (ft : String), WF s → s.currentView = (gi : Int) →
    s.data[gi]? = some (Group.mk live ft) → activeReceiving s →
    2 ≤ live.length → live.length - i < fuel →
    ∃ s3 tr, unsplitLoop fuel s live gi true i = some (s3, tr) ∧
      tr = everyOther (live.drop i) ∧
      s3.selectedTab = s.selectedTab ∧ ViewInv s3 ∧ WF s3 := by
  induction fuel with
  | zero =>
      intro s live gi i ft hwf hcv hg hrecv hlen hfuel
      omega
  | succ fuel ih =>
      intro s live gi i ft hwf hcv hg hrecv hlen hfuel
      have hgi_lt : gi < s.data.length := (List.getElem?_eq_some_iff.mp hg).1
      by_cases hi : i < live.length
      · have hnd : live.Nodup := by
          have := hwf.nodups _ (List.getElem?_mem hg)
          exact this
        have ht_mem : live[i] ∈ live := List.getElem_mem hi
        have hfidx : s.data.findIdx? (fun x => x.tabs.contains live[i]) = some gi :=
          findIdx_contains_eq hwf.disj hg ht_mem
        have hsplice : spliceOut live live[i] = live.eraseIdx i := spliceOut_at hnd hi
        have hel : (live.eraseIdx i).length = live.length - 1 := by
          rw [List.length_eraseIdx]
          simp [hi]
        set g1 : Group := Group.mk (live.eraseIdx i) ft with hg1def
        set sa : SVState := { s with data := s.data.set gi g1 } with hsa
        set sb : SVState := resetTabState sa live[i] true with hsbdef
        have hsb_data : sb.data = s.data.set gi g1 := rfl
        have hsb_cv : sb.currentView = s.currentView := rfl
        have hsb_sel : sb.selectedTab = s.selectedTab := rfl
        have hrm_eq : removeTabFromGroup s live[i] gi true =
            (if (live.eraseIdx i).length < 2 then removeGroup sb gi
             else match (live.eraseIdx i).getLast? with
                  | some last => updateSplitView sb last
                  | none => none) := by
          simp only [removeTabFromGroup, hg]
          rw [hsplice]
        have hd1 : sb.data.Pairwise DisjG := by
          rw [hsb_data]
          exact pairwise_disj_set hwf.disj hg
            (fun x hx => (List.eraseIdx_sublist live i).subset hx)
        have hg1v : sb.data[gi]? = some g1 := by
          rw [hsb_data]
          exact List.getElem?_set_self (by simpa using hgi_lt)
        by_cases hdes : (live.eraseIdx i).length < 2
        · -- the group is destroyed in this iteration
          have hveq : sb.currentView = ((gi : Nat) : Int) := by
            rw [hsb_cv, hcv]
          have hdab : dataAt sb = some g1 := by
            unfold dataAt
            rw [hveq, if_pos (by exact_mod_cast Nat.zero_le gi)]
            have htn : ((gi : Int)).toNat = gi := by omega
            rw [htn]
            exact hg1v
          obtain ⟨s1, hs1eq, hs1data, hs1cv, hs1sel⟩ := removeGroup_eq hveq hdab
          have hrm : removeTabFromGroup s live[i] gi true = some s1 := by
            rw [hrm_eq, if_pos hdes, hs1eq]
          have hs1data2 : s1.data = s.data.eraseIdx gi := by
            rw [hs1data, hsb_data, eraseIdx_set_same]
          have hdec : decide (2 ≤ (live.eraseIdx i).length) = false := by
            simp
            omega
          have hloop : unsplitLoop (fuel + 1) s live gi true i =
              (unsplitLoop fuel s1 (live.eraseIdx i) gi false (i + 1)).map
                (fun r => (r.1, live[i] :: r.2)) := by
            simp only [unsplitLoop]
            rw [dif_pos hi]
            simp only [hfidx, hg, hsplice, hrm]
            rw [if_pos (by simp), hdec]
          obtain ⟨fuel2, rfl⟩ : ∃ f2, fuel = f2 + 1 := ⟨fuel - 1, by omega⟩
          have hstop : unsplitLoop (fuel2 + 1) s1 (live.eraseIdx i) gi false (i + 1) =
              some (s1, []) := by
            simp only [unsplitLoop]
            rw [dif_neg (by omega)]
          refine ⟨s1, [live[i]], ?_, ?_, ?_, Or.inl hs1cv, wf_data_eraseIdx hwf hs1data2⟩
          · rw [hloop, hstop]
            rfl
          · rw [everyOther_cons_drop live i hi,
              List.drop_eq_nil_of_le (show live.length ≤ i + 2 by omega)]
            rfl
          · rw [hs1sel, hsb_sel]
        · -- the group survives and is re-activated
          have hlen1 : 2 ≤ (live.eraseIdx i).length := by omega
          obtain ⟨last, hlast⟩ : ∃ last, (live.eraseIdx i).getLast? = some last := by
            rcases hl : (live.eraseIdx i).getLast? with _ | last
            · rw [List.getLast?_eq_getElem?, List.getElem?_eq_getElem (by omega)] at hl
              cases hl
            · exact ⟨last, rfl⟩
          have hlast_mem : last ∈ g1.tabs := mem_of_getLast?_eq_some hlast
          have hcvb : sb.currentView = -1 ∨
              (0 ≤ sb.currentView ∧ sb.currentView.toNat < sb.data.length) := by
            right
            rw [hsb_cv, hcv, hsb_data, List.length_set]
            constructor
            · exact_mod_cast Nat.zero_le gi
            · have htn : ((gi : Int)).toNat = gi := by omega
              rw [htn]
              exact hgi_lt
          obtain ⟨s1, hs1eq, hs1data, hs1sel, hs1cv, _, hs1mem, _⟩ :=
            updateSplitView_found hd1 hg1v hlast_mem hcvb
          have hrm : removeTabFromGroup s live[i] gi true = some s1 := by
            rw [hrm_eq, if_neg hdes]
            simp only [hlast]
            exact hs1eq
          have hdec : decide (2 ≤ (live.eraseIdx i).length) = true := by
            simp
            omega
          have hloop : unsplitLoop (fuel + 1) s live gi true i =
              (unsplitLoop fuel s1 (live.eraseIdx i) gi true (i + 1)).map
                (fun r => (r.1, live[i] :: r.2)) := by
            simp only [unsplitLoop]
            rw [dif_pos hi]
            simp only [hfidx, hg, hsplice, hrm]
            rw [if_pos (by simp), hdec]
          have hwf1 : WF s1 := by
            refine wf_data_set hwf hg ?_ ?_ hlen1 (by rw [hs1data, hsb_data])
            · exact fun x hx => (List.eraseIdx_sublist live i).subset hx
            · exact hnd.eraseIdx i
          have hcv1 : s1.currentView = (gi : Int) := hs1cv
          have hg1v1 : s1.data[gi]? = some g1 := by
            rw [hs1data]
            exact hg1v
          have hrecv1 : activeReceiving s1 := by
            unfold activeReceiving dataAt
            rw [hcv1, if_pos (by exact_mod_cast Nat.zero_le gi)]
            have htn : ((gi : Int)).toNat = gi := by omega
            rw [htn, hg1v1]
            intro m hm
            exact (hs1mem m hm).1
          have hfuel1 : (live.eraseIdx i).length - (i + 1) < fuel := by
            rw [hel]
            omega
          obtain ⟨s3, tr, hrec, htr, hsel3, hinv3, hwf3⟩ :=
            ih s1 (live.eraseIdx i) gi (i + 1) ft hwf1 hcv1 hg1v1 hrecv1 hlen1 hfuel1
          refine ⟨s3, live[i] :: tr, ?_, ?_, ?_, hinv3, hwf3⟩
          · rw [hloop, hrec]
            rfl
          · rw [htr, drop_eraseIdx_succ live i hi, everyOther_cons_drop live i hi]
          · rw [hsel3, hs1sel, hsb_sel]
      · -- iterator exhausted
        refine ⟨s, [], ?_, ?_, rfl, ?_, hwf⟩
        · simp only [unsplitLoop]
          rw [dif_neg hi]
        · rw [List.drop_eq_nil_of_le (by omega)]
          rfl
        · right
          rw [hcv]
          refine ⟨⟨by exact_mod_cast Nat.zero_le gi, ?_⟩, ?_⟩
          · have htn : ((gi : Int)).toNat = gi := by omega
            rw [htn]
            exact hgi_lt
          · exact hrecv

/-- `unsplitCurrentView` on a well-formed state with an active group:
succeeds, invokes the close path exactly for the members at even positions
of the group's member list, and restores the selected tab. -/
theorem unsplit_spec {s : SVState} {g : Group} (hwf : WF s) (hda : dataAt s = some g)
    (hrecv : activeReceiving s) :
    ∃ s2 tr, unsplitCurrentView s = some (s2, tr) ∧ tr = everyOther g.tabs ∧
      s2.selectedTab = s.selectedTab ∧ ViewInv s2 ∧ WF s2 := by
  have hc : 0 ≤ s.currentView := by
    by_contra hlt
    simp [dataAt, hlt] at hda
  have hgv : s.data[s.currentView.toNat]? = some g := by
    unfold dataAt at hda
    rwa [if_pos hc] at hda
  have hcv : s.currentView = ((s.currentView.toNat : Nat) : Int) := by omega
  have hlen : 2 ≤ g.tabs.length := hwf.sizes g (List.getElem?_mem hgv)
  have hgv2 : s.data[s.currentView.toNat]? = some (Group.mk g.tabs g.flexType) := hgv
  obtain ⟨s3, tr, hloop, htr, hsel, hinv, hwf3⟩ :=
    unsplitLoop_spec (g.tabs.length + 1) s g.tabs s.currentView.toNat 0 g.flexType
      hwf hcv hgv2 hrecv hlen (by omega)
  refine ⟨{ s3 with selectedTab := s.selectedTab }, tr, ?_, by simpa using htr, rfl, ?_, ?_⟩
  · simp only [unsplitCurrentView, hda]
    rw [hloop]
    rfl
  · exact hinv
  · exact hwf3.of_data_eq rfl


/-! ### Claim C2 -/

/-- A state with one active four-member group (tabs 1-4). -/
def exActive4 : SVState :=
  { data := [Group.mk [1, 2, 3, 4] "flex"]
    currentView := 0
    panel := { attrSplitView := true, flexDirection := some "column" }
    prefWorking := true
    tabs := fun t =>
      if t = 1 then memTS 0 true
      else if t = 2 then memTS 1 false
      else if t = 3 then memTS 2 false
      else if t = 4 then memTS 3 false else {}
    selectedTab := some 1 }

/-- Counterexample to C2: on the active four-member group [1, 2, 3, 4],
`unsplitCurrentView` invokes the close path only for tabs 1 and 3 — member
2 is skipped, because the `for...of` loop iterates the very array that
`handleTabClose` splices. -/
theorem claim2_cex :
    dataAt exActive4 = some (Group.mk [1, 2, 3, 4] "flex") ∧
    (2 : TabId) ∈ (Group.mk [1, 2, 3, 4] "flex").tabs ∧
    (unsplitCurrentView exActive4).map (fun r => r.2) = some [1, 3] ∧
    (2 : TabId) ∉ ([1, 3] : List TabId) := by
  refine ⟨rfl, by decide, ?_, by decide⟩
  rfl

/-- C2 (amended): on a well-formed state with an active group,
`unsplitCurrentView` invokes the tab-close handling path with
`forUnsplit = true` exactly for the members at even positions (first,
third, fifth, ...) of the active group's member list — not for every
member — and after it returns the selected tab equals the tab selected
immediately before the call. -/
theorem claim2_unsplit (s : SVState) (g : Group) (hwf : WF s) (hda : dataAt s = some g)
    (hrecv : activeReceiving s) :
    ∃ s2 tr, unsplitCurrentView s = some (s2, tr) ∧
      tr = everyOther g.tabs ∧ s2.selectedTab = s.selectedTab := by
  obtain ⟨s2, tr, h1, h2, h3, _, _⟩ := unsplit_spec hwf hda hrecv
  exact ⟨s2, tr, h1, h2, h3⟩

/-- Witness for the amended C2 on the four-member group. -/
theorem claim2_witness :
    dataAt exActive4 = some (Group.mk [1, 2, 3, 4] "flex") ∧
    (∃ s2 tr, unsplitCurrentView exActive4 = some (s2, tr) ∧
      tr = everyOther (Group.mk [1, 2, 3, 4] "flex").tabs ∧
      s2.selectedTab = exActive4.selectedTab) := by
  refine ⟨rfl, ?_⟩
  exact claim2_unsplit exActive4 (Group.mk [1, 2, 3, 4] "flex")
    ⟨by decide, by decide, by decide⟩ rfl (by decide)


/-! ### Helpers for the view invariant -/

theorem viewInv_parts {s2 : SVState} (h0 : 0 ≤ s2.currentView)
    (hlt : s2.currentView.toNat < s2.data.length) (hr : activeReceiving s2) : ViewInv s2 :=
  Or.inr ⟨⟨h0, hlt⟩, hr⟩

theorem activeReceiving_intro {s2 : SVState} {g : Group} (h : dataAt s2 = some g)
    (hm : ∀ m ∈ g.tabs, (s2.tabs m).docShellIsActive = true) : activeReceiving s2 := by
  unfold activeReceiving
  rw [h]
  exact hm

theorem activeReceiving_elim {s : SVState} {g : Group} (h : dataAt s = some g)
    (hr : activeReceiving s) : ∀ m ∈ g.tabs, (s.tabs m).docShellIsActive = true := by
  unfold activeReceiving at hr
  rw [h] at hr
  exact hr

theorem findIdx?_some_spec {d : List Group} {p : Group → Bool} : ∀ {k j : Nat},
    List.findIdx? p d k = some j → k ≤ j ∧ ∃ g, d[j - k]? = some g ∧ p g = true := by
  induction d with
  | nil =>
      intro k j h
      simp at h
  | cons c rest ih =>
      intro k j h
      rw [List.findIdx?_cons] at h
      by_cases hpc : p c = true
      · rw [if_pos hpc, Option.some_inj] at h
        subst h
        exact ⟨le_refl _, c, by simp, hpc⟩
      · rw [if_neg hpc] at h
        obtain ⟨hkj, g, hget, hg⟩ := ih h
        refine ⟨by omega, g, ?_, hg⟩
        have hj : j - k = (j - (k + 1)) + 1 := by omega
        rw [hj, List.getElem?_cons_succ]
        exact hget

theorem findIdx?_some_spec0 {d : List Group} {p : Group → Bool} {j : Nat}
    (h : d.findIdx? p = some j) : ∃ g, d[j]? = some g ∧ p g = true := by
  obtain ⟨_, g, hget, hp⟩ := findIdx?_some_spec (k := 0) h
  exact ⟨g, by simpa using hget, hp⟩

/-- Appending groups (and moving selection) preserves the view invariant. -/
theorem viewInv_data_append {s : SVState} (hinv : ViewInv s) (l : List Group)
    (o : Option TabId) : ViewInv { s with data := s.data ++ l, selectedTab := o } := by
  rcases hinv with h | ⟨⟨h0, hlt⟩, hr⟩
  · exact Or.inl h
  · refine viewInv_parts h0 ?_ ?_
    · show s.currentView.toNat < (s.data ++ l).length
      rw [List.length_append]
      omega
    · obtain ⟨cg, hcg⟩ : ∃ cg, s.data[s.currentView.toNat]? = some cg :=
        ⟨_, List.getElem?_eq_getElem hlt⟩
      have hcg0 : dataAt s = some cg := by
        unfold dataAt
        rw [if_pos h0]
        exact hcg
      refine activeReceiving_intro (g := cg) ?_ ?_
      · unfold dataAt
        show (if 0 ≤ s.currentView then (s.data ++ l)[s.currentView.toNat]? else none) = some cg
        rw [if_pos h0, List.getElem?_append_left hlt]
        exact hcg
      · intro m hm
        exact activeReceiving_elim hcg0 hr m hm

/-- Removing a tab from a group and resetting its state keeps the view
invariant: the removed tab belongs only to the group being shrunk, never
to the active one unless they coincide, and in that case the shrunk list
is a subset of the old membership avoiding the removed tab. -/
theorem viewInv_reset_set {s : SVState} (hwf : WF s) (hinv : ViewInv s)
    {gi : Nat} {g : Group} (hg : s.data[gi]? = some g) {t : TabId} (ht : t ∈ g.tabs)
    {g1 : Group} (hsub : g1.tabs ⊆ g.tabs.erase t) (b : Bool) :
    ViewInv (resetTabState { s with data := s.data.set gi g1 } t b) := by
  set sb : SVState := resetTabState { s with data := s.data.set gi g1 } t b with hsb
  have hsb_cv : sb.currentView = s.currentView := rfl
  have hsb_data : sb.data = s.data.set gi g1 := rfl
  rcases hinv with h | ⟨⟨h0, hlt⟩, hr⟩
  · exact Or.inl (by rw [hsb_cv]; exact h)
  · refine viewInv_parts (by rw [hsb_cv]; exact h0) ?_ ?_
    · rw [hsb_cv, hsb_data, List.length_set]
      exact hlt
    · have hndg : g.tabs.Nodup := hwf.nodups g (List.getElem?_mem hg)
      by_cases hcv : s.currentView.toNat = gi
      · have hda1 : dataAt sb = some g1 := by
          unfold dataAt
          rw [if_pos (by rw [hsb_cv]; exact h0), hsb_cv, hcv, hsb_data]
          exact List.getElem?_set_self (by rwa [← hcv])
        refine activeReceiving_intro hda1 ?_
        intro m hm
        have hmne : m ≠ t := by
          intro hmt
          subst hmt
          exact hndg.not_mem_erase (hsub hm)
        have hmg : m ∈ g.tabs := List.erase_subset _ _ (hsub hm)
        have htabs : sb.tabs m = s.tabs m := resetTabState_tabs_other _ _ _ _ hmne
        rw [htabs]
        have hda0 : dataAt s = some g := by
          unfold dataAt
          rw [if_pos h0, hcv]
          exact hg
        exact activeReceiving_elim hda0 hr m hmg
      · obtain ⟨cg, hcg⟩ : ∃ cg, s.data[s.currentView.toNat]? = some cg :=
          ⟨_, List.getElem?_eq_getElem hlt⟩
        have hda1 : dataAt sb = some cg := by
          unfold dataAt
          rw [if_pos (by rw [hsb_cv]; exact h0), hsb_cv, hsb_data,
            List.getElem?_set_ne (fun heq => hcv heq.symm)]
          exact hcg
        refine activeReceiving_intro hda1 ?_
        intro m hm
        have htcg : t ∉ cg.tabs := disj_not_mem_other hwf.disj hg ht hcg hcv
        have hmne : m ≠ t := fun hmt => htcg (hmt ▸ hm)
        have htabs : sb.tabs m = s.tabs m := resetTabState_tabs_other _ _ _ _ hmne
        rw [htabs]
        have hda0 : dataAt s = some cg := by
          unfold dataAt
          rw [if_pos h0]
          exact hcg
        exact activeReceiving_elim hda0 hr m hm


/-! ### Claim C1 -/

/-- `splitTabs` leaves the view invariant in place: every path ends in a
no-op, a deactivation, or an activation. -/
theorem splitTabs_viewInv {s : SVState} {ts : List TabId} {s2 : SVState}
    (hinv : ViewInv s) (h : splitTabs s ts = some s2) : ViewInv s2 := by
  have hnew : ∀ s3, splitTabsNew s ts = some s3 → ViewInv s3 := by
    intro s3 h3
    rcases ts with _ | ⟨t0, ts2⟩
    · simp only [splitTabsNew, List.head?] at h3
      by_cases hc : 0 ≤ s.currentView
      · rw [if_pos hc] at h3
        rcases hda : dataAt { s with
            data := s.data ++ [Group.mk [] "flex"],
            selectedTab := (none : Option TabId) } with _ | cg
        · rw [hda] at h3
          simp at h3
        · rw [hda] at h3
          simp only [Option.map_some', Option.some_inj] at h3
          subst h3
          exact Or.inl (deact_currentView _ _)
      · rw [if_neg hc, Option.some_inj] at h3
        subst h3
        exact viewInv_data_append hinv _ _
    · simp only [splitTabsNew, List.head?] at h3
      exact updateSplitView_viewInv (viewInv_data_append hinv _ _) h3
  rcases hfl : ts.find? (fun t => (s.tabs t).splitView) with _ | et
  · simp only [splitTabs, hfl] at h
    exact hnew s2 h
  · simp only [splitTabs, hfl] at h
    by_cases hidx : (s.data.findIdx? (fun g => g.tabs.contains et)).isSome = true
    · rw [if_pos hidx] at h
      exact updateSplitView_viewInv hinv h
    · rw [if_neg hidx] at h
      exact hnew s2 h

/-- `handleTabClose` keeps the view invariant, provided the closed tab does
not destroy a group at an index strictly below `currentView`. -/
theorem handleTabClose_viewInv {s : SVState} {t : TabId} {fu : Bool} {s2 : SVState}
    (hwf : WF s) (hinv : ViewInv s)
    (hside : ∀ gi g, s.data.findIdx? (fun x => x.tabs.contains t) = some gi →
      s.data[gi]? = some g → g.tabs.length ≤ 2 → ¬ ((gi : Int) < s.currentView))
    (h : handleTabClose s t fu = some s2) : ViewInv s2 := by
  rcases hfi : s.data.findIdx? (fun x => x.tabs.contains t) with _ | gi
  · simp only [handleTabClose, hfi, Option.some_inj] at h
    subst h
    exact hinv
  · obtain ⟨g, hg, hpg⟩ := findIdx?_some_spec0 hfi
    have ht : t ∈ g.tabs := (contains_true_iff _ _).mp hpg
    have hgi_lt : gi < s.data.length := (List.getElem?_eq_some_iff.mp hg).1
    have hsplice : spliceOut g.tabs t = g.tabs.erase t := spliceOut_eq_erase ht
    simp only [handleTabClose, hfi] at h
    set g1 : Group := Group.mk (g.tabs.erase t) g.flexType with hg1
    set sb : SVState := resetTabState { s with data := s.data.set gi g1 } t fu with hsbd
    have hrm_eq : removeTabFromGroup s t gi fu =
        (if (g.tabs.erase t).length < 2 then removeGroup sb gi
         else match (g.tabs.erase t).getLast? with
              | some last => updateSplitView sb last
              | none => none) := by
      simp only [removeTabFromGroup, hg]
      rw [hsplice]
    rw [hrm_eq] at h
    have hsbinv : ViewInv sb := viewInv_reset_set hwf hinv hg ht (fun x hx => hx) fu
    by_cases hdes : (g.tabs.erase t).length < 2
    · rw [if_pos hdes] at h
      by_cases hveq : sb.currentView = (gi : Int)
      · have hda : dataAt sb = some g1 := by
          unfold dataAt
          rw [hveq, if_pos (by exact_mod_cast Nat.zero_le gi)]
          have htn : ((gi : Int)).toNat = gi := by omega
          rw [htn]
          show (s.data.set gi g1)[gi]? = some g1
          exact List.getElem?_set_self (by simpa using hgi_lt)
        obtain ⟨s3, hs3, _, hcv3, _⟩ := removeGroup_eq hveq hda
        rw [hs3, Option.some_inj] at h
        subst h
        exact Or.inl hcv3
      · rw [removeGroup_ne hveq, Option.some_inj] at h
        subst h
        rcases hsbinv with hm1 | ⟨⟨h0, hlt⟩, hr⟩
        · exact Or.inl hm1
        · have hscv : sb.currentView = s.currentView := rfl
          have hsblen : sb.data.length = s.data.length := by
            show (s.data.set gi g1).length = s.data.length
            exact List.length_set _ _ _
          rw [hscv] at h0 hlt
          rw [hsblen] at hlt
          have hlen2 : g.tabs.length ≤ 2 := by
            have hle : (g.tabs.erase t).length = g.tabs.length - 1 := by
              rw [List.length_erase]
              simp [ht]
            have hpos : 1 ≤ g.tabs.length := List.length_pos.mpr (List.ne_nil_of_mem ht)
            omega
          have hnlt : ¬ ((gi : Int) < s.currentView) := hside gi g hfi hg hlen2
          have hcvne : s.currentView ≠ (gi : Int) := fun he => hveq he
          have hlt_gi : s.currentView < (gi : Int) := by omega
          have htn_lt : s.currentView.toNat < gi := by omega
          obtain ⟨cg, hcg⟩ : ∃ cg, s.data[s.currentView.toNat]? = some cg :=
            ⟨_, List.getElem?_eq_getElem hlt⟩
          have hdasb : dataAt sb = some cg := by
            unfold dataAt
            show (if 0 ≤ s.currentView then (s.data.set gi g1)[s.currentView.toNat]?
              else none) = some cg
            rw [if_pos h0, List.getElem?_set_ne (by omega)]
            exact hcg
          refine viewInv_parts h0 ?_ ?_
          · show s.currentView.toNat < (sb.data.eraseIdx gi).length
            rw [List.length_eraseIdx, hsblen, if_pos hgi_lt]
            omega
          · refine activeReceiving_intro (g := cg) ?_ ?_
            · unfold dataAt
              show (if 0 ≤ s.currentView then (sb.data.eraseIdx gi)[s.currentView.toNat]?
                else none) = some cg
              rw [if_pos h0, List.getElem?_eraseIdx, if_pos htn_lt]
              show (s.data.set gi g1)[s.currentView.toNat]? = some cg
              rw [List.getElem?_set_ne (by omega)]
              exact hcg
            · intro m hm
              exact activeReceiving_elim hdasb hr m hm
    · rw [if_neg hdes] at h
      rcases hl : (g.tabs.erase t).getLast? with _ | last
      · rw [hl] at h
        simp at h
      · simp only [hl] at h
        exact updateSplitView_viewInv hsbinv h

/-- `removeGroup` keeps the view invariant unless it removes a group at an
index strictly below `currentView`. -/
theorem removeGroup_viewInv {s : SVState} {i : Nat} {s2 : SVState}
    (hinv : ViewInv s) (hside : ¬ ((i : Int) < s.currentView))
    (h : removeGroup s i = some s2) : ViewInv s2 := by
  by_cases hveq : s.currentView = (i : Int)
  · rcases hda : dataAt s with _ | g
    · unfold removeGroup at h
      rw [if_pos hveq] at h
      unfold resetSplitView at h
      rw [hda] at h
      simp at h
    · obtain ⟨s3, hs3, _, hcv3, _⟩ := removeGroup_eq hveq hda
      rw [hs3, Option.some_inj] at h
      subst h
      exact Or.inl hcv3
  · rw [removeGroup_ne hveq, Option.some_inj] at h
    subst h
    rcases hinv with hm1 | ⟨⟨h0, hlt⟩, hr⟩
    · exact Or.inl hm1
    · have hlt_i : s.currentView < (i : Int) := by omega
      obtain ⟨cg, hcg⟩ : ∃ cg, s.data[s.currentView.toNat]? = some cg :=
        ⟨_, List.getElem?_eq_getElem hlt⟩
      have hda0 : dataAt s = some cg := by
        unfold dataAt
        rw [if_pos h0]
        exact hcg
      by_cases hil : i < s.data.length
      · refine viewInv_parts h0 ?_ ?_
        · show s.currentView.toNat < (s.data.eraseIdx i).length
          rw [List.length_eraseIdx, if_pos hil]
          omega
        · refine activeReceiving_intro (g := cg) ?_ ?_
          · unfold dataAt
            show (if 0 ≤ s.currentView then (s.data.eraseIdx i)[s.currentView.toNat]?
              else none) = some cg
            rw [if_pos h0, List.getElem?_eraseIdx, if_pos (by omega)]
            exact hcg
          · intro m hm
            exact activeReceiving_elim hda0 hr m hm
      · have hnoop : s.data.eraseIdx i = s.data := List.eraseIdx_eq_self.mpr (by omega)
        refine viewInv_parts h0 ?_ ?_
        · show s.currentView.toNat < (s.data.eraseIdx i).length
          rw [hnoop]
          exact hlt
        · refine activeReceiving_intro (g := cg) ?_ ?_
          · unfold dataAt
            show (if 0 ≤ s.currentView then (s.data.eraseIdx i)[s.currentView.toNat]?
              else none) = some cg
            rw [if_pos h0, hnoop]
            exact hcg
          · intro m hm
            exact activeReceiving_elim hda0 hr m hm

/-- `unsplitCurrentView` keeps the view invariant whenever it succeeds. -/
theorem unsplit_viewInv {s s2 : SVState} (hwf : WF s) (hinv : ViewInv s)
    (h : (unsplitCurrentView s).map Prod.fst = some s2) : ViewInv s2 := by
  rcases hda : dataAt s with _ | g
  · unfold unsplitCurrentView at h
    rw [hda] at h
    simp at h
  · have hrecv : activeReceiving s := by
      rcases hinv with hm | ⟨_, hr⟩
      · exfalso
        rw [dataAt] at hda
        rw [hm] at hda
        simp at hda
      · exact hr
    obtain ⟨s3, tr, hu, _, _, hinv3, _⟩ := unsplit_spec hwf hda hrecv
    rw [hu] at h
    simp only [Option.map_some', Option.some_inj] at h
    subst h
    exact hinv3

/-- The situation the code mishandles: an operation that removes a group
(directly, or through closing a member of a group with at most two
members) at an index strictly below the current view. -/
def removesBelowCurrent : Op → SVState → Prop
  | .removeGroup i, s => (i : Int) < s.currentView
  | .handleTabClose t _, s =>
      ∃ gi g, s.data.findIdx? (fun x => x.tabs.contains t) = some gi ∧
        s.data[gi]? = some g ∧ g.tabs.length ≤ 2 ∧ (gi : Int) < s.currentView
  | _, _ => False

/-- C1 (amended): for every well-formed state satisfying the invariant
("currentView is none or a valid index whose group is receiving
docshell-active state"), every listed operation that succeeds preserves
the invariant, EXCEPT when it removes a group at an index strictly below
`currentView` (the code never re-indexes `currentView` after the splice). -/
theorem claim1_viewInv (op : Op) (s s2 : SVState) (hwf : WF s) (hinv : ViewInv s)
    (hside : ¬ removesBelowCurrent op s) (h : applyOp op s = some s2) : ViewInv s2 := by
  cases op with
  | splitTabs ts => exact splitTabs_viewInv hinv h
  | handleTabClose t fu =>
      refine handleTabClose_viewInv hwf hinv ?_ h
      intro gi g hfi hg hlen hlt
      exact hside ⟨gi, g, hfi, hg, hlen, hlt⟩
  | removeGroup i => exact removeGroup_viewInv hinv (fun hlt => hside hlt) h
  | updateSplitView t => exact updateSplitView_viewInv hinv h
  | deactivateSplitView =>
      rcases hda : dataAt s with _ | g
      · simp [applyOp, deactivateSplitView, hda] at h
      · simp only [applyOp, deactivateSplitView, hda, Option.map_some',
          Option.some_inj] at h
        subst h
        exact Or.inl (deact_currentView _ _)
  | resetSplitView =>
      rcases hda : dataAt s with _ | g
      · simp [applyOp, resetSplitView, hda] at h
      · simp only [applyOp, resetSplitView, hda, Option.map_some', Option.some_inj] at h
        subst h
        exact Or.inl rfl
  | unsplitCurrentView => exact unsplit_viewInv hwf hinv h

/-- The broken state of the C1 counterexample: two groups, the second one
active.  (Reachable from a fresh manager via `splitTabs [1,2]` then
`splitTabs [3,4]`.) -/
def exC1 : SVState :=
  { data := [Group.mk [1, 2] "flex", Group.mk [3, 4] "flex"]
    currentView := 1
    panel := { attrSplitView := true, flexDirection := some "column" }
    prefWorking := true
    tabs := fun t =>
      if t = 3 then memTS 0 true
      else if t = 4 then memTS 1 false
      else if t = 1 ∨ t = 2 then { splitView := true } else {}
    selectedTab := some 3 }

/-- Counterexample to C1 as stated: from the well-formed invariant-holding
state `exC1` (group [3,4] at index 1 active), closing tab 1 destroys the
2-member group [1,2] at index 0 but leaves `currentView = 1`, now out of
range of the single remaining group: the invariant is not preserved. -/
theorem claim1_cex :
    ViewInv exC1 ∧ WF exC1 ∧
    (applyOp (Op.handleTabClose 1 false) exC1).map (fun s2 => decide (ViewInv s2)) =
      some false := by
  refine ⟨by decide, ⟨by decide, by decide, by decide⟩, ?_⟩
  rfl

/-- Witness for the amended C1 (deactivation from the concrete active
state). -/
theorem claim1_witness :
    WF exActive ∧ ViewInv exActive ∧
    ¬ removesBelowCurrent Op.deactivateSplitView exActive ∧
    applyOp Op.deactivateSplitView exActive =
      some (deactivateCore exActive (Group.mk [1, 2] "flex")) ∧
    ViewInv (deactivateCore exActive (Group.mk [1, 2] "flex")) := by
  refine ⟨⟨by decide, by decide, by decide⟩, by decide, not_false, rfl, ?_⟩
  exact claim1_viewInv Op.deactivateSplitView exActive _
    ⟨by decide, by decide, by decide⟩ (by decide) not_false rfl

end SplitView
